import Mathlib

/-!
Verification development for the BroLang toolchain (BroLang-Stack):
a shallow embedding of the codegen (codegen.cpp), the emitter
(emitter.cpp) and the RohitVM virtual machine (RohitVM.cpp / RohitVM.hpp),
together with theorems about the embedded definitions.

Conventions of the embedding:
* C++ fixed-width unsigned integers (uint8_t / uint16_t) are represented
  as Nat; wrap-around performed by the C++ type system is made explicit
  with `% 256` / `% 65536` exactly where a conversion happens in the
  source, and theorems carry `< 65536` bounds where a field stands for a
  uint16_t value.
* The 64 KiB memory is a function `Nat → Nat`; a read models the
  uint16_t address wrap (`% 65536`) and the uint8_t cell (`% 256`).
* The VM's console output is modelled as a list of events: `Ev.prn n`
  stands for the pair of lines "Output: n" / "HUMAN OUTPUT: n" printed
  by PRN, and `Ev.halt ..` for the state dump printed by HLT.
* Fatal `handleError` calls (which print to stderr and call std::exit)
  are modelled by the `StepResult.fatal msg s` constructor carrying the
  machine state at the moment of the error.
-/

/-- One bytecode instruction: opcode byte value plus the two immediate
operands (`a1`, `a2` default to 0 in the C++ struct). -/
structure Instruction where
  op : Nat
  a1 : Nat
  a2 : Nat
deriving DecidableEq, Repr

/-- The opcode table of RohitVM.hpp, as raw byte values. -/
def opcodeList : List Nat :=
  [0x01, 0x02,
   0x08, 0x09, 0x0A, 0x0B, 0x0C,
   0x10, 0x11, 0x12, 0x13, 0x14, 0x15, 0x16, 0x17,
   0x1A, 0x1B,
   0x20, 0x21, 0x22, 0x23,
   0x30, 0x31, 0x32, 0x33]

/-- The width table built in VM::getInstructionSize. -/
def sizeTable : List (Nat × Nat) :=
  [(0x01, 1), (0x02, 1),
   (0x08, 3), (0x09, 3), (0x0A, 3), (0x0B, 3), (0x0C, 3),
   (0x10, 1), (0x11, 1), (0x12, 1), (0x13, 1),
   (0x14, 1), (0x15, 1), (0x16, 1), (0x17, 1),
   (0x1A, 3), (0x1B, 3),
   (0x20, 1), (0x21, 1), (0x22, 1), (0x23, 1),
   (0x30, 1),
   (0x31, 3), (0x32, 3), (0x33, 3)]

/-- VM::getInstructionSize: the std::map lookup `m[op]`, whose
operator[] yields the default value 0 for a byte that is not in the
table. -/
def getInstructionSize (op : Nat) : Nat :=
  (sizeTable.lookup op).getD 0

/-- VM::loadProgram viewed as a byte encoder: for each instruction emit
the opcode byte, then (when the width is at least 2) the little-endian
bytes of a1, then (when the width is 5) the little-endian bytes of a2.
These are exactly the bytes the loader writes at addresses 0, 1, 2, …
of the VM memory. -/
def loadProgramBytes : List Instruction → List Nat
  | [] => []
  | i :: rest =>
    (i.op % 256 ::
      ((if 2 ≤ getInstructionSize i.op then [i.a1 % 256, i.a1 / 256 % 256] else []) ++
       (if getInstructionSize i.op = 5 then [i.a2 % 256, i.a2 / 256 % 256] else [])))
    ++ loadProgramBytes rest

/-- Decoding of a byte stream, mirroring VM::fetchNextInstruction /
VM::getInstructionSize: read one opcode byte, look up its width, read
the little-endian operands, advance by the width, until the bytes are
consumed.  The fuel argument bounds the number of decoded instructions;
a width-0 (unknown) opcode makes decoding fail. -/
def decodeBytes : Nat → List Nat → Option (List Instruction)
  | _, [] => some []
  | 0, _ :: _ => none
  | fuel + 1, b :: rest =>
    if 2 ≤ getInstructionSize b then
      match rest with
      | b1 :: b2 :: rest2 =>
        if getInstructionSize b = 5 then
          match rest2 with
          | b3 :: b4 :: rest3 =>
            (decodeBytes fuel rest3).map (fun l => ⟨b, b1 + 256 * b2, b3 + 256 * b4⟩ :: l)
          | _ => none
        else
          (decodeBytes fuel rest2).map (fun l => ⟨b, b1 + 256 * b2, 0⟩ :: l)
      | _ => none
    else if getInstructionSize b = 1 then
      (decodeBytes fuel rest).map (fun l => ⟨b, 0, 0⟩ :: l)
    else none

/-- Console events produced by the VM: `prn n` is the PRN output pair
"Output: n" / "HUMAN OUTPUT: n"; `halt` is the register line and the
32-byte hex dump printed by HLT. -/
inductive Ev where
  | prn (n : Nat)
  | halt (ax bx cx dx sp : Nat) (dump : List Nat)
deriving DecidableEq, Repr

/-- The VM machine state: the six 16-bit registers, FLAGS and the 64 KiB
memory (Registers / CPU / Memory in RohitVM.hpp). -/
structure VMState where
  ax : Nat
  bx : Nat
  cx : Nat
  dx : Nat
  sp : Nat
  ip : Nat
  flags : Nat
  mem : Nat → Nat

/-- Result of executing one instruction: either a new state plus console
events, or a fatal handleError (which in the C++ exits the process)
carrying the state at the moment of the error. -/
inductive StepResult where
  | ok (s : VMState) (evs : List Ev)
  | fatal (msg : String) (s : VMState)

/-- Memory read: uint16_t address wrap and uint8_t cell. -/
def readMem (m : Nat → Nat) (a : Nat) : Nat := m (a % 65536) % 256

/-- Memory write at a uint16_t address. -/
def writeMem (m : Nat → Nat) (a v : Nat) : Nat → Nat :=
  fun x => if x = a % 65536 then v else m x

/-- VM::push: check for Stack Overflow (SP < 2), then store the value's
two little-endian bytes at SP-2 and SP-1 and decrement SP by 2. -/
def pushVal (s : VMState) (v : Nat) : StepResult :=
  if s.sp < 2 then .fatal "Stack Overflow" s
  else
    .ok { s with
            sp := s.sp - 2,
            mem := writeMem (writeMem s.mem (s.sp - 2) (v % 256))
                            (s.sp - 2 + 1) (v / 256 % 256) } []

/-- VM::pop: `none` is the Stack Underflow case (SP > 65534); otherwise
return the popped little-endian word and the state with SP + 2. -/
def popVal (s : VMState) : Option (Nat × VMState) :=
  if 65534 < s.sp then none
  else some (readMem s.mem s.sp + 256 * readMem s.mem (s.sp + 1),
             { s with sp := s.sp + 2 })

/-- Pop into a register chosen by the caller (the four POP dispatch
branches of VM::executeInstruction). -/
def doPop (s : VMState) (wr : VMState → Nat → VMState) : StepResult :=
  match popVal s with
  | none => .fatal "Stack Underflow" s
  | some (v, s2) => .ok (wr s2 v) []

/-- 16-bit wrapping subtraction (`cpu.r.ax -= cpu.r.bx` on uint16_t). -/
def sub16 (a b : Nat) : Nat := (a + (65536 - b % 65536)) % 65536

/-- The bytes printed by the HLT hex dump: printhex(memory.raw() +
0xFFFF - 32, 32), i.e. the 32 bytes at addresses 0xFFDF .. 0xFFFE. -/
def hltDump (m : Nat → Nat) : List Nat :=
  (List.range 32).map (fun k => m (65503 + k) % 256)

/-- VM::executeInstruction: dispatch over the opcode byte.  An opcode
outside the table falls into the default branch, a fatal
"Illegal Instruction". -/
def execInstr (i : Instruction) (s : VMState) : StepResult :=
  match i.op with
  | 0x01 => .ok s []
  | 0x02 => .ok s [.halt s.ax s.bx s.cx s.dx s.sp (hltDump s.mem)]
  | 0x08 => .ok { s with ax := i.a1 } []
  | 0x09 => .ok { s with bx := i.a1 } []
  | 0x0A => .ok { s with cx := i.a1 } []
  | 0x0B => .ok { s with dx := i.a1 } []
  | 0x0C => .ok { s with sp := i.a1 } []
  | 0x20 => .ok { s with ax := (s.ax + s.bx) % 65536 } []
  | 0x21 => .ok { s with ax := sub16 s.ax s.bx } []
  | 0x22 => .ok { s with ax := s.ax * s.bx % 65536 } []
  | 0x23 =>
    if s.bx = 0 then .fatal "Division by zero" s
    else .ok { s with ax := s.ax / s.bx } []
  | 0x10 => .ok { s with flags := s.flags ||| 8 } []
  | 0x11 => .ok { s with flags := s.flags &&& (65535 ^^^ 8) } []
  | 0x12 => .ok { s with flags := s.flags ||| 4 } []
  | 0x13 => .ok { s with flags := s.flags &&& (65535 ^^^ 4) } []
  | 0x14 => .ok { s with flags := s.flags ||| 2 } []
  | 0x15 => .ok { s with flags := s.flags &&& (65535 ^^^ 2) } []
  | 0x16 => .ok { s with flags := s.flags ||| 1 } []
  | 0x17 => .ok { s with flags := s.flags &&& (65535 ^^^ 1) } []
  | 0x1A =>
    if i.a1 = 0 then pushVal s s.ax
    else if i.a1 = 1 then pushVal s s.bx
    else if i.a1 = 2 then pushVal s s.cx
    else if i.a1 = 3 then pushVal s s.dx
    else .fatal "Invalid PUSH register" s
  | 0x1B =>
    if i.a1 = 0 then doPop s (fun t v => { t with ax := v })
    else if i.a1 = 1 then doPop s (fun t v => { t with bx := v })
    else if i.a1 = 2 then doPop s (fun t v => { t with cx := v })
    else if i.a1 = 3 then doPop s (fun t v => { t with dx := v })
    else .fatal "Invalid POP register" s
  | 0x30 => .ok s [.prn s.ax]
  | 0x31 => .ok { s with ip := i.a1 } []
  | 0x32 => if s.ax = 0 then .ok { s with ip := i.a1 } [] else .ok s []
  | 0x33 => if s.ax ≠ 0 then .ok { s with ip := i.a1 } [] else .ok s []
  | _ => .fatal "Illegal Instruction" s

/-- VM::fetchNextInstruction: read the opcode byte at IP, look up its
width, read the little-endian operands at IP+1 / IP+3 when the width
demands them, and advance IP by the width (uint16_t wrap). -/
def fetchInstr (s : VMState) : Instruction × VMState :=
  let op := readMem s.mem s.ip
  let w := getInstructionSize op
  let a1 := if 2 ≤ w then readMem s.mem (s.ip + 1) + 256 * readMem s.mem (s.ip + 2) else 0
  let a2 := if w = 5 then readMem s.mem (s.ip + 3) + 256 * readMem s.mem (s.ip + 4) else 0
  (⟨op, a1, a2⟩, { s with ip := (s.ip + w) % 65536 })

/-- Outcome of the VM::execute loop. -/
inductive RunResult where
  | halted (s : VMState)
  | fatalErr (msg : String) (s : VMState)
  | outOfFuel (s : VMState)

/-- The message of a fatal run outcome, if any. -/
def runErrMsg : RunResult → Option String
  | .fatalErr m _ => some m
  | _ => none

/-- The message of a fatal step, if any. -/
def stepErr : StepResult → Option String
  | .fatal m _ => some m
  | _ => none

/-- VM::execute: fetch-decode-execute until HLT executes (normal
termination) or a fatal error exits.  Fuel bounds the number of
executed instructions. -/
def run : Nat → VMState → List Ev × RunResult
  | 0, s => ([], .outOfFuel s)
  | n + 1, s =>
    match fetchInstr s with
    | (i, s1) =>
      match execInstr i s1 with
      | .fatal msg t => ([], .fatalErr msg t)
      | .ok s2 evs =>
        if i.op = 0x02 then (evs, .halted s2)
        else
          match run n s2 with
          | (evs2, r) => (evs ++ evs2, r)

/-- Store a byte list at consecutive addresses (the loadProgram write
loop; breakLine is a uint16_t, hence the address wrap in writeMem). -/
def storeBytes : (Nat → Nat) → Nat → List Nat → (Nat → Nat)
  | m, _, [] => m
  | m, addr, b :: rest => storeBytes (writeMem m addr b) (addr + 1) rest

/-- The initial machine: AX=BX=CX=DX=IP=FLAGS=0, SP=0xFFFF, zeroed
memory. -/
def initVM : VMState :=
  { ax := 0, bx := 0, cx := 0, dx := 0, sp := 65535, ip := 0, flags := 0,
    mem := fun _ => 0 }

/-- VM::loadProgram: write the encoded program into memory from
address 0. -/
def loadProgram (prog : List Instruction) : VMState :=
  { initVM with mem := storeBytes initVM.mem 0 (loadProgramBytes prog) }

/-- Load a program and run it. -/
def runProg (prog : List Instruction) (fuel : Nat) : List Ev × RunResult :=
  run fuel (loadProgram prog)

/-- Emitter::writeToFile's opcode-to-name switch.  Note the default
branch: any opcode without a case (in particular JMP, JZ and JNZ) is
printed as "NOP". -/
def opcodeName (op : Nat) : String :=
  match op with
  | 0x01 => "NOP"
  | 0x02 => "HLT"
  | 0x08 => "MOV"
  | 0x09 => "MOV_BX"
  | 0x0A => "MOV_CX"
  | 0x0B => "MOV_DX"
  | 0x0C => "MOV_SP"
  | 0x20 => "ADD"
  | 0x21 => "SUB"
  | 0x22 => "MUL"
  | 0x23 => "DIV"
  | 0x1A => "PUSH"
  | 0x1B => "POP"
  | 0x10 => "STE"
  | 0x11 => "CLE"
  | 0x12 => "STG"
  | 0x13 => "CLG"
  | 0x14 => "STH"
  | 0x15 => "CLH"
  | 0x16 => "STL"
  | 0x17 => "CLL"
  | 0x30 => "PRN"
  | _ => "NOP"

/-- Emitter::writeToFile's second switch: the opcodes for which the
single immediate operand is printed after the name. -/
def emitsOperand (op : Nat) : Bool :=
  op == 0x08 || op == 0x09 || op == 0x0A || op == 0x0B || op == 0x0C ||
  op == 0x1A || op == 0x1B

/-- The serialized artifact line for one instruction, as the pair of
the printed opcode name and the printed operand (if any). -/
def emitInstr (i : Instruction) : String × Option Nat :=
  (opcodeName i.op, if emitsOperand i.op then some i.a1 else none)

/-! ## The AST (ast.h) and the code generator (codegen.cpp) -/

/-- Binary operators of BroLang expressions. -/
inductive BinOp where
  | add | sub | mul | div | eq | gt | lt
deriving DecidableEq, Repr

/-- Expressions: number literals (i32 in the source), variable reads and
binary operations. -/
inductive Expr where
  | num (n : Int)
  | var (name : String)
  | bin (op : BinOp) (l r : Expr)
deriving DecidableEq, Repr

mutual

/-- Statements: Let, Print, If (with then/else blocks) and While. -/
inductive Stmt where
  | letS (name : String) (e : Expr)
  | print (e : Expr)
  | ifS (cond : Expr) (thenB elseB : StmtList)
  | whileS (cond : Expr) (body : StmtList)
deriving DecidableEq, Repr

/-- A block / program: an ordered sequence of statements. -/
inductive StmtList where
  | nil
  | cons (head : Stmt) (tail : StmtList)
deriving DecidableEq, Repr

end

/-- The codegen state (the private fields of class Codegen). -/
structure CGState where
  instructions : List Instruction
  symbolTable : List (String × Nat)
  labelTargets : List (Nat × Nat)
  labelPlaceholders : List (Nat × Nat)
  nextRegister : Nat
  labelCounter : Nat

/-- The cleared state at the start of Codegen::generate. -/
def cgInit : CGState :=
  { instructions := [], symbolTable := [], labelTargets := [],
    labelPlaceholders := [], nextRegister := 1, labelCounter := 0 }

/-- Codegen::emit. -/
def emit (s : CGState) (i : Instruction) : CGState :=
  { s with instructions := s.instructions ++ [i] }

/-- Codegen::markLabel: record the current instruction count as the
target of the label (std::map insert-or-assign; label ids are marked at
most once, so a prepend with first-match lookup is the same map). -/
def markLabel (s : CGState) (id : Nat) : CGState :=
  { s with labelTargets := (id, s.instructions.length) :: s.labelTargets }

/-- Codegen::emitJumpPlaceholder: record (current index, label id) and
emit the jump with placeholder operand 0. -/
def emitJumpPlaceholder (s : CGState) (op : Nat) (id : Nat) : CGState :=
  emit { s with labelPlaceholders := s.labelPlaceholders ++ [(s.instructions.length, id)] }
    ⟨op, 0, 0⟩

/-- Label target lookup. -/
def lookT (s : CGState) (id : Nat) : Option Nat := s.labelTargets.lookup id

/-- uint16_t image of an int32 value (static_cast in genExpression). -/
def u16ofInt (n : Int) : Nat := (n % 65536).toNat

/-- Codegen::genExpression, viewed as the list of instructions it
appends (it reads but never writes the codegen state).  An unknown
variable prints a diagnostic and emits MOV 0. -/
def genExpression (tbl : List (String × Nat)) : Expr → List Instruction
  | .num n => [⟨0x08, u16ofInt n, 0⟩]
  | .var x =>
    match tbl.lookup x with
    | none => [⟨0x08, 0, 0⟩]
    | some r => [⟨0x1A, r, 0⟩, ⟨0x1B, 0, 0⟩]
  | .bin op l r =>
    genExpression tbl l ++ [⟨0x1A, 0, 0⟩] ++
    genExpression tbl r ++ [⟨0x1A, 0, 0⟩, ⟨0x1B, 1, 0⟩, ⟨0x1B, 0, 0⟩] ++
    (match op with
     | .add => [⟨0x20, 0, 0⟩]
     | .sub => [⟨0x21, 0, 0⟩]
     | .mul => [⟨0x22, 0, 0⟩]
     | .div => [⟨0x23, 0, 0⟩]
     | .eq => [⟨0x21, 0, 0⟩, ⟨0x10, 0, 0⟩]
     | .gt => [⟨0x21, 0, 0⟩, ⟨0x12, 0, 0⟩]
     | .lt => [⟨0x21, 0, 0⟩, ⟨0x16, 0, 0⟩])

/-- The fixed normalize-condition prelude emitted by If and While:
PUSH 0; POP 1; MOV 0; SUB; STE; CLE. -/
def condPrelude : List Instruction :=
  [⟨0x1A, 0, 0⟩, ⟨0x1B, 1, 0⟩, ⟨0x08, 0, 0⟩, ⟨0x21, 0, 0⟩, ⟨0x10, 0, 0⟩, ⟨0x11, 0, 0⟩]

mutual

/-- Codegen::genStatement. -/
def genStatement (s : CGState) : Stmt → CGState
  | .letS name e =>
    let s1 := { s with instructions := s.instructions ++ genExpression s.symbolTable e }
    match s.symbolTable.lookup name with
    | none =>
      let reg := s.nextRegister % 65536
      let s2 := { s1 with symbolTable := (name, reg) :: s.symbolTable,
                          nextRegister := s.nextRegister + 1 }
      emit (emit s2 ⟨0x1A, 0, 0⟩) ⟨0x1B, reg, 0⟩
    | some reg => emit (emit s1 ⟨0x1A, 0, 0⟩) ⟨0x1B, reg, 0⟩
  | .print e =>
    let s1 := { s with instructions := s.instructions ++ genExpression s.symbolTable e }
    emit s1 ⟨0x30, 0, 0⟩
  | .ifS c tb eb =>
    let s1 := { s with instructions :=
                  s.instructions ++ genExpression s.symbolTable c ++ condPrelude }
    let elseL := s.labelCounter
    let endL := s.labelCounter + 1
    let s2 := { s1 with labelCounter := s1.labelCounter + 2 }
    let s3 := emitJumpPlaceholder s2 0x32 elseL
    let s4 := genStmtList s3 tb
    let s5 := emitJumpPlaceholder s4 0x31 endL
    let s6 := markLabel s5 elseL
    let s7 := genStmtList s6 eb
    markLabel s7 endL
  | .whileS c body =>
    let condL := s.labelCounter
    let endL := s.labelCounter + 1
    let s1 := { s with labelCounter := s.labelCounter + 2 }
    let s2 := markLabel s1 condL
    let s3 := { s2 with instructions :=
                  s2.instructions ++ genExpression s.symbolTable c ++ condPrelude }
    let s4 := emitJumpPlaceholder s3 0x32 endL
    let s5 := genStmtList s4 body
    let s6 := emitJumpPlaceholder s5 0x31 condL
    markLabel s6 endL

/-- Lower all statements of a block in order. -/
def genStmtList (s : CGState) : StmtList → CGState
  | .nil => s
  | .cons t ts => genStmtList (genStatement s t) ts

end

/-- Replace the a1 field of the instruction at one index
(`instructions[index].a1 = …` in Codegen::patchJumps). -/
def setA1 : List Instruction → Nat → Nat → List Instruction
  | [], _, _ => []
  | i :: rest, 0, v => { i with a1 := v } :: rest
  | i :: rest, n + 1, v => i :: setA1 rest n v

/-- Codegen::patchJumps, patching part: walk the placeholders in order;
for each one whose label id has a target, write the target (a size_t,
truncated to the uint16_t a1 field) into the jump's a1. -/
def patchList (targets : List (Nat × Nat)) (phs : List (Nat × Nat))
    (insts : List Instruction) : List Instruction :=
  phs.foldl
    (fun acc p =>
      match targets.lookup p.2 with
      | some v => setA1 acc p.1 (v % 65536)
      | none => acc)
    insts

/-- Codegen::patchJumps, diagnostic part: the label ids for which the
"Error: Unknown label ID" message is printed. -/
def patchDiag (targets : List (Nat × Nat)) (phs : List (Nat × Nat)) : List Nat :=
  (phs.filter (fun p => (targets.lookup p.2).isNone)).map (fun p => p.2)

/-- The codegen state after lowering all statements and appending the
final HLT, just before patchJumps runs. -/
def genProgramState (p : StmtList) : CGState :=
  emit (genStmtList cgInit p) ⟨0x02, 0, 0⟩

/-- Codegen::generate: clear the state, lower every statement, append
HLT, patch the jumps and return the instruction list. -/
def generate (p : StmtList) : List Instruction :=
  let s := genProgramState p
  patchList s.labelTargets s.labelPlaceholders s.instructions

/-- Whether an opcode byte is one of the jump opcodes JMP/JZ/JNZ. -/
def isJump (op : Nat) : Prop := op = 0x31 ∨ op = 0x32 ∨ op = 0x33

instance (op : Nat) : Decidable (isJump op) := by
  unfold isJump; infer_instance

mutual

/-- The set of variable names bound by Let statements in a statement,
including those in nested blocks. -/
def letNames : Stmt → Finset String
  | .letS n _ => {n}
  | .print _ => ∅
  | .ifS _ tb eb => letNamesList tb ∪ letNamesList eb
  | .whileS _ b => letNamesList b

/-- The set of variable names bound by Let statements in a block. -/
def letNamesList : StmtList → Finset String
  | .nil => ∅
  | .cons t ts => letNames t ∪ letNamesList ts

end

/-- The S3 program of the specification:
`letbro a = 5; ifbro (a == 5) { printbro(1); } elsebro { printbro(2); }`. -/
def s3prog : StmtList :=
  .cons (.letS "a" (.num 5))
    (.cons (.ifS (.bin .eq (.var "a") (.num 5))
        (.cons (.print (.num 1)) .nil)
        (.cons (.print (.num 2)) .nil))
      .nil)

/-- Unfolding helper for the execute loop: a silent, non-HLT,
non-fatal instruction just advances the machine. -/
theorem run_step_silent (n : Nat) (s s1 s2 : VMState) (i : Instruction)
    (hf : fetchInstr s = (i, s1)) (hx : execInstr i s1 = .ok s2 [])
    (hh : i.op ≠ 2) : run (n + 1) s = run n s2 := by
  show (match fetchInstr s with
    | (i, s1) =>
      match execInstr i s1 with
      | .fatal msg t => ([], RunResult.fatalErr msg t)
      | .ok s2 evs =>
        if i.op = 0x02 then (evs, RunResult.halted s2)
        else
          match run n s2 with
          | (evs2, r) => (evs ++ evs2, r)) = run n s2
  rw [hf]
  dsimp only
  rw [hx]
  dsimp only
  rw [if_neg hh]
  rcases hr : run n s2 with ⟨evs2, r⟩
  simp

/-- Unfolding helper for the execute loop: a fatal instruction stops the
run with its error and state. -/
theorem run_step_fatal (n : Nat) (s s1 t : VMState) (i : Instruction) (msg : String)
    (hf : fetchInstr s = (i, s1)) (hx : execInstr i s1 = .fatal msg t) :
    run (n + 1) s = ([], .fatalErr msg t) := by
  show (match fetchInstr s with
    | (i, s1) =>
      match execInstr i s1 with
      | .fatal msg t => ([], RunResult.fatalErr msg t)
      | .ok s2 evs =>
        if i.op = 0x02 then (evs, RunResult.halted s2)
        else
          match run n s2 with
          | (evs2, r) => (evs ++ evs2, r)) = ([], RunResult.fatalErr msg t)
  rw [hf]
  dsimp only
  rw [hx]

/-- The instruction list generate produces for the S3 program (checked
by evaluation below).  The JZ at index 18 carries the *instruction
index* 22 of the else block; the JMP at index 21 carries 24. -/
def s3code : List Instruction :=
  [⟨0x08, 5, 0⟩, ⟨0x1A, 0, 0⟩, ⟨0x1B, 1, 0⟩,
   ⟨0x1A, 1, 0⟩, ⟨0x1B, 0, 0⟩, ⟨0x1A, 0, 0⟩, ⟨0x08, 5, 0⟩, ⟨0x1A, 0, 0⟩,
   ⟨0x1B, 1, 0⟩, ⟨0x1B, 0, 0⟩, ⟨0x21, 0, 0⟩, ⟨0x10, 0, 0⟩,
   ⟨0x1A, 0, 0⟩, ⟨0x1B, 1, 0⟩, ⟨0x08, 0, 0⟩, ⟨0x21, 0, 0⟩, ⟨0x10, 0, 0⟩, ⟨0x11, 0, 0⟩,
   ⟨0x32, 22, 0⟩, ⟨0x08, 1, 0⟩, ⟨0x30, 0, 0⟩, ⟨0x31, 24, 0⟩,
   ⟨0x08, 2, 0⟩, ⟨0x30, 0, 0⟩, ⟨0x02, 0, 0⟩]

/-- The 59-byte image of s3code.  The JZ target 22 (an instruction
index) is a byte offset into the middle of the PUSH at byte 21. -/
def s3bytes : List Nat :=
  [8, 5, 0, 26, 0, 0, 27, 1, 0, 26, 1, 0, 27, 0, 0, 26, 0, 0, 8, 5, 0, 26, 0, 0, 27, 1, 0,
   27, 0, 0, 33, 16, 26, 0, 0, 27, 1, 0, 8, 0, 0, 33, 16, 17, 50, 22, 0, 8, 1, 0, 48, 49,
   24, 0, 8, 2, 0, 48, 2]

def czm : Nat → Nat := storeBytes (fun _ => 0) 0 s3bytes
def c1m1 : Nat → Nat := writeMem (writeMem czm 65533 5) 65534 0
def c1m2 : Nat → Nat := writeMem (writeMem c1m1 65533 5) 65534 0
def c1m3 : Nat → Nat := writeMem (writeMem c1m2 65533 5) 65534 0
def c1m4 : Nat → Nat := writeMem (writeMem c1m3 65531 5) 65532 0
def c1m5 : Nat → Nat := writeMem (writeMem c1m4 65533 0) 65534 0

def c1s0 : VMState := ⟨0, 0, 0, 0, 65535, 0, 0, czm⟩
def c1s1 : VMState := ⟨5, 0, 0, 0, 65535, 3, 0, czm⟩
def c1s2 : VMState := ⟨5, 0, 0, 0, 65533, 6, 0, c1m1⟩
def c1s3 : VMState := ⟨5, 5, 0, 0, 65535, 9, 0, c1m1⟩
def c1s4 : VMState := ⟨5, 5, 0, 0, 65533, 12, 0, c1m2⟩
def c1s5 : VMState := ⟨5, 5, 0, 0, 65535, 15, 0, c1m2⟩
def c1s6 : VMState := ⟨5, 5, 0, 0, 65533, 18, 0, c1m3⟩
def c1s7 : VMState := ⟨5, 5, 0, 0, 65533, 21, 0, c1m3⟩
def c1s8 : VMState := ⟨5, 5, 0, 0, 65531, 24, 0, c1m4⟩
def c1s9 : VMState := ⟨5, 5, 0, 0, 65533, 27, 0, c1m4⟩
def c1s10 : VMState := ⟨5, 5, 0, 0, 65535, 30, 0, c1m4⟩
def c1s11 : VMState := ⟨0, 5, 0, 0, 65535, 31, 0, c1m4⟩
def c1s12 : VMState := ⟨0, 5, 0, 0, 65535, 32, 8, c1m4⟩
def c1s13 : VMState := ⟨0, 5, 0, 0, 65533, 35, 8, c1m5⟩
def c1s14 : VMState := ⟨0, 0, 0, 0, 65535, 38, 8, c1m5⟩
def c1s15 : VMState := ⟨0, 0, 0, 0, 65535, 41, 8, c1m5⟩
def c1s16 : VMState := ⟨0, 0, 0, 0, 65535, 42, 8, c1m5⟩
def c1s17 : VMState := ⟨0, 0, 0, 0, 65535, 43, 8, c1m5⟩
def c1s18 : VMState := ⟨0, 0, 0, 0, 65535, 44, 0, c1m5⟩
def c1s19 : VMState := ⟨0, 0, 0, 0, 65535, 22, 0, c1m5⟩

/-- The concrete execution trace of the S3 byte image: 19 silent steps,
then the taken JZ lands at byte offset 22 (inside the PUSH encoded at
bytes 21..23), byte 0x00 is fetched, and the VM dies with the fatal
"Illegal Instruction" error. -/
theorem c1run : run 40 c1s0 = ([], .fatalErr "Illegal Instruction" c1s19) := by
  have h0 : run 40 c1s0 = run 39 c1s1 :=
    run_step_silent 39 c1s0 ⟨0, 0, 0, 0, 65535, 3, 0, czm⟩ c1s1 ⟨8, 5, 0⟩ rfl rfl (by decide)
  have h1 : run 39 c1s1 = run 38 c1s2 :=
    run_step_silent 38 c1s1 ⟨5, 0, 0, 0, 65535, 6, 0, czm⟩ c1s2 ⟨26, 0, 0⟩ rfl rfl (by decide)
  have h2 : run 38 c1s2 = run 37 c1s3 :=
    run_step_silent 37 c1s2 ⟨5, 0, 0, 0, 65533, 9, 0, c1m1⟩ c1s3 ⟨27, 1, 0⟩ rfl rfl (by decide)
  have h3 : run 37 c1s3 = run 36 c1s4 :=
    run_step_silent 36 c1s3 ⟨5, 5, 0, 0, 65535, 12, 0, c1m1⟩ c1s4 ⟨26, 1, 0⟩ rfl rfl (by decide)
  have h4 : run 36 c1s4 = run 35 c1s5 :=
    run_step_silent 35 c1s4 ⟨5, 5, 0, 0, 65533, 15, 0, c1m2⟩ c1s5 ⟨27, 0, 0⟩ rfl rfl (by decide)
  have h5 : run 35 c1s5 = run 34 c1s6 :=
    run_step_silent 34 c1s5 ⟨5, 5, 0, 0, 65535, 18, 0, c1m2⟩ c1s6 ⟨26, 0, 0⟩ rfl rfl (by decide)
  have h6 : run 34 c1s6 = run 33 c1s7 :=
    run_step_silent 33 c1s6 ⟨5, 5, 0, 0, 65533, 21, 0, c1m3⟩ c1s7 ⟨8, 5, 0⟩ rfl rfl (by decide)
  have h7 : run 33 c1s7 = run 32 c1s8 :=
    run_step_silent 32 c1s7 ⟨5, 5, 0, 0, 65533, 24, 0, c1m3⟩ c1s8 ⟨26, 0, 0⟩ rfl rfl (by decide)
  have h8 : run 32 c1s8 = run 31 c1s9 :=
    run_step_silent 31 c1s8 ⟨5, 5, 0, 0, 65531, 27, 0, c1m4⟩ c1s9 ⟨27, 1, 0⟩ rfl rfl (by decide)
  have h9 : run 31 c1s9 = run 30 c1s10 :=
    run_step_silent 30 c1s9 ⟨5, 5, 0, 0, 65533, 30, 0, c1m4⟩ c1s10 ⟨27, 0, 0⟩ rfl rfl (by decide)
  have h10 : run 30 c1s10 = run 29 c1s11 :=
    run_step_silent 29 c1s10 ⟨5, 5, 0, 0, 65535, 31, 0, c1m4⟩ c1s11 ⟨33, 0, 0⟩ rfl rfl (by decide)
  have h11 : run 29 c1s11 = run 28 c1s12 :=
    run_step_silent 28 c1s11 ⟨0, 5, 0, 0, 65535, 32, 0, c1m4⟩ c1s12 ⟨16, 0, 0⟩ rfl rfl (by decide)
  have h12 : run 28 c1s12 = run 27 c1s13 :=
    run_step_silent 27 c1s12 ⟨0, 5, 0, 0, 65535, 35, 8, c1m4⟩ c1s13 ⟨26, 0, 0⟩ rfl rfl (by decide)
  have h13 : run 27 c1s13 = run 26 c1s14 :=
    run_step_silent 26 c1s13 ⟨0, 5, 0, 0, 65533, 38, 8, c1m5⟩ c1s14 ⟨27, 1, 0⟩ rfl rfl (by decide)
  have h14 : run 26 c1s14 = run 25 c1s15 :=
    run_step_silent 25 c1s14 ⟨0, 0, 0, 0, 65535, 41, 8, c1m5⟩ c1s15 ⟨8, 0, 0⟩ rfl rfl (by decide)
  have h15 : run 25 c1s15 = run 24 c1s16 :=
    run_step_silent 24 c1s15 ⟨0, 0, 0, 0, 65535, 42, 8, c1m5⟩ c1s16 ⟨33, 0, 0⟩ rfl rfl (by decide)
  have h16 : run 24 c1s16 = run 23 c1s17 :=
    run_step_silent 23 c1s16 ⟨0, 0, 0, 0, 65535, 43, 8, c1m5⟩ c1s17 ⟨16, 0, 0⟩ rfl rfl (by decide)
  have h17 : run 23 c1s17 = run 22 c1s18 :=
    run_step_silent 22 c1s17 ⟨0, 0, 0, 0, 65535, 44, 8, c1m5⟩ c1s18 ⟨17, 0, 0⟩ rfl rfl (by decide)
  have h18 : run 22 c1s18 = run 21 c1s19 :=
    run_step_silent 21 c1s18 ⟨0, 0, 0, 0, 65535, 47, 0, c1m5⟩ c1s19 ⟨50, 22, 0⟩ rfl rfl (by decide)
  have h19 : run 21 c1s19 = ([], .fatalErr "Illegal Instruction" c1s19) :=
    run_step_fatal 20 c1s19 c1s19 c1s19 ⟨0, 0, 0⟩ "Illegal Instruction" rfl rfl
  exact h0.trans (h1.trans (h2.trans (h3.trans (h4.trans (h5.trans (h6.trans (h7.trans
    (h8.trans (h9.trans (h10.trans (h11.trans (h12.trans (h13.trans (h14.trans (h15.trans
    (h16.trans (h17.trans (h18.trans (h19)))))))))))))))))))

/-- Claim C1: running the S3 program
`letbro a = 5; ifbro (a == 5) { printbro(1); } elsebro { printbro(2); }`
through generate, loadProgram and the execute loop does NOT print
`Output: 2`: it prints nothing (the event list is empty) and the VM
exits with the fatal error "Illegal Instruction", because the JZ
operand 22 is an instruction index that the VM interprets as a byte
offset, landing inside the PUSH instruction encoded at bytes 21..23. -/
theorem s3_run_hits_illegal_instruction :
    (runProg (generate s3prog) 40).1 = [] ∧
    runErrMsg (runProg (generate s3prog) 40).2 = some "Illegal Instruction" := by
  have hc : generate s3prog = s3code := by decide
  have hb : loadProgramBytes s3code = s3bytes := by decide
  have hl : loadProgram (generate s3prog) = c1s0 := by
    unfold loadProgram
    rw [hc, hb]
    rfl
  have : runProg (generate s3prog) 40 = ([], .fatalErr "Illegal Instruction" c1s19) := by
    unfold runProg
    rw [hl, c1run]
  rw [this]
  exact ⟨rfl, rfl⟩

/-- Claim C2: the emitter does NOT preserve opcode identity for the jump
opcodes.  Emitter::writeToFile has no case for JMP, JZ or JNZ, so they
hit the default branch and are serialized as "NOP" with no operand —
indistinguishable from a real NOP.  The S3 program's codegen output
contains such jumps, so codegen-produced lists are affected. -/
theorem emitter_serializes_jumps_as_nop :
    (⟨0x32, 22, 0⟩ : Instruction) ∈ generate s3prog ∧
    (⟨0x31, 24, 0⟩ : Instruction) ∈ generate s3prog ∧
    emitInstr ⟨0x32, 22, 0⟩ = ("NOP", none) ∧
    emitInstr ⟨0x31, 24, 0⟩ = ("NOP", none) ∧
    emitInstr ⟨0x33, 7, 0⟩ = ("NOP", none) ∧
    emitInstr ⟨0x01, 0, 0⟩ = ("NOP", none) := by
  refine ⟨by decide, by decide, rfl, rfl, rfl, rfl⟩

/-- Every opcode of the table has width 1 or 3 (no 5-byte opcode is in
use). -/
theorem table_width_1_or_3 :
    ∀ op ∈ opcodeList, getInstructionSize op = 1 ∨ getInstructionSize op = 3 := by
  decide

/-- Every opcode of the table fits in one byte. -/
theorem table_op_lt_256 : ∀ op ∈ opcodeList, op < 256 := by decide

/-- Unfolding lemma: decoding a byte whose width is 1. -/
theorem decodeBytes_cons1 (f b : Nat) (bs : List Nat) (h : getInstructionSize b = 1) :
    decodeBytes (f + 1) (b :: bs) = (decodeBytes f bs).map (fun l => ⟨b, 0, 0⟩ :: l) := by
  have h2 : ¬ 2 ≤ getInstructionSize b := by omega
  rw [decodeBytes.eq_def]
  dsimp only
  rw [if_neg h2, if_pos h]

/-- Unfolding lemma: decoding a byte whose width is 3. -/
theorem decodeBytes_cons3 (f b b1 b2 : Nat) (bs : List Nat)
    (h : getInstructionSize b = 3) :
    decodeBytes (f + 1) (b :: b1 :: b2 :: bs) =
      (decodeBytes f bs).map (fun l => ⟨b, b1 + 256 * b2, 0⟩ :: l) := by
  have h2 : 2 ≤ getInstructionSize b := by omega
  have h5 : getInstructionSize b ≠ 5 := by omega
  rw [decodeBytes.eq_def]
  dsimp only
  rw [if_pos h2, if_neg h5]

/-- Claim C3 (amended): the encode/decode round-trip holds for
instruction lists drawn from the opcode table with imm2 = 0, imm1 a
16-bit value, and imm1 = 0 on width-1 opcodes. -/
theorem encode_decode_roundTrip (L : List Instruction)
    (hL : ∀ i ∈ L, i.op ∈ opcodeList ∧ i.a1 < 65536 ∧ i.a2 = 0 ∧
      (getInstructionSize i.op = 1 → i.a1 = 0)) :
    ∀ f, (loadProgramBytes L).length ≤ f →
      decodeBytes f (loadProgramBytes L) = some L := by
  induction L with
  | nil => intro f _; cases f <;> rfl
  | cons i rest ih =>
    intro f hf
    obtain ⟨hop, ha1, ha2, hw1⟩ := hL i (by simp)
    have hrest : ∀ j ∈ rest, j.op ∈ opcodeList ∧ j.a1 < 65536 ∧ j.a2 = 0 ∧
        (getInstructionSize j.op = 1 → j.a1 = 0) :=
      fun j hj => hL j (by simp [hj])
    have hmod : i.op % 256 = i.op := Nat.mod_eq_of_lt (table_op_lt_256 i.op hop)
    rcases table_width_1_or_3 i.op hop with hw | hw
    · have ha0 : i.a1 = 0 := hw1 hw
      have hbytes : loadProgramBytes (i :: rest) = i.op :: loadProgramBytes rest := by
        rw [loadProgramBytes, hw, hmod]
        simp
      rw [hbytes] at hf ⊢
      rcases f with - | f
      · simp at hf
      · have h1 : (loadProgramBytes rest).length ≤ f := by
          simp at hf; omega
        rw [decodeBytes_cons1 f i.op _ hw, ih hrest f h1]
        cases i
        simp_all
    · have hbytes : loadProgramBytes (i :: rest) =
          i.op :: i.a1 % 256 :: i.a1 / 256 % 256 :: loadProgramBytes rest := by
        rw [loadProgramBytes, hw, hmod]
        simp
      rw [hbytes] at hf ⊢
      rcases f with - | f
      · simp at hf
      · have h1 : (loadProgramBytes rest).length ≤ f := by
          simp at hf; omega
        rw [decodeBytes_cons3 f i.op _ _ _ hw, ih hrest f h1]
        have hre : i.a1 % 256 + 256 * (i.a1 / 256 % 256) = i.a1 := by omega
        cases i
        simp_all

/-- Claim C3 (counterexample): the round-trip fails as originally
stated.  HLT is in the opcode table and ⟨HLT, 7, 0⟩ has imm2 = 0, but
its byte image forgets imm1 = 7, and decoding returns ⟨HLT, 0, 0⟩. -/
theorem encode_decode_drops_width1_imm :
    ((0x02 : Nat) ∈ opcodeList ∧ (⟨0x02, 7, 0⟩ : Instruction).a2 = 0) ∧
    decodeBytes (loadProgramBytes [⟨0x02, 7, 0⟩]).length (loadProgramBytes [⟨0x02, 7, 0⟩]) ≠
      some [⟨0x02, 7, 0⟩] := by
  refine ⟨⟨by decide, rfl⟩, by decide⟩

/-- Witness for the amended round-trip at a concrete two-instruction
program. -/
theorem encode_decode_roundTrip_witness :
    decodeBytes 4 (loadProgramBytes [⟨0x08, 513, 0⟩, ⟨0x02, 0, 0⟩]) =
      some [⟨0x08, 513, 0⟩, ⟨0x02, 0, 0⟩] :=
  encode_decode_roundTrip [⟨0x08, 513, 0⟩, ⟨0x02, 0, 0⟩] (by decide) 4 (by decide)

/-- Claim C5 (counterexample): "PUSH raises Stack Overflow iff SP < 2"
is false as stated: with operand 4 and SP = 0 the operand check wins
and the error is "Invalid PUSH register", not "Stack Overflow". -/
def c5state : VMState := ⟨0, 0, 0, 0, 0, 0, 0, fun _ => 0⟩

theorem push_invalid_register_beats_overflow :
    c5state.sp < 2 ∧
    stepErr (execInstr ⟨0x1A, 4, 0⟩ c5state) ≠ some "Stack Overflow" ∧
    execInstr ⟨0x1A, 4, 0⟩ c5state = .fatal "Invalid PUSH register" c5state := by
  refine ⟨by decide, by decide, rfl⟩

/-- The error of a push depends only on SP. -/
theorem stepErr_pushVal (s : VMState) (v : Nat) :
    stepErr (pushVal s v) = if s.sp < 2 then some "Stack Overflow" else none := by
  unfold pushVal
  by_cases h : s.sp < 2 <;> simp [h, stepErr]

/-- The error of a pop depends only on SP. -/
theorem stepErr_doPop (s : VMState) (wr : VMState → Nat → VMState) :
    stepErr (doPop s wr) = if 65534 < s.sp then some "Stack Underflow" else none := by
  unfold doPop popVal
  by_cases h : 65534 < s.sp <;> simp [h, stepErr]

/-- Claim C5 (amended): for PUSH/POP with a register operand in
{0,1,2,3}, Stack Overflow is raised iff SP < 2 (PUSH), Stack Underflow
iff SP > 65534 (POP); with any other operand the fatal error is the
invalid-register one ("Invalid PUSH register" / "Invalid POP
register").  In every fatal case the carried state is the input state:
registers and memory unchanged, and the step produces no ok-state, so
the run loop stops. -/
theorem push_pop_error_conditions (s : VMState) (a : Nat) :
    (a < 4 →
      (stepErr (execInstr ⟨0x1A, a, 0⟩ s) = some "Stack Overflow" ↔ s.sp < 2) ∧
      (s.sp < 2 → execInstr ⟨0x1A, a, 0⟩ s = .fatal "Stack Overflow" s) ∧
      (stepErr (execInstr ⟨0x1B, a, 0⟩ s) = some "Stack Underflow" ↔ 65534 < s.sp) ∧
      (65534 < s.sp → execInstr ⟨0x1B, a, 0⟩ s = .fatal "Stack Underflow" s)) ∧
    (4 ≤ a →
      execInstr ⟨0x1A, a, 0⟩ s = .fatal "Invalid PUSH register" s ∧
      execInstr ⟨0x1B, a, 0⟩ s = .fatal "Invalid POP register" s) := by
  constructor
  · intro ha
    obtain ⟨v, hv⟩ : ∃ v, execInstr ⟨0x1A, a, 0⟩ s = pushVal s v := by
      interval_cases a <;> exact ⟨_, rfl⟩
    obtain ⟨wr, hw⟩ : ∃ wr, execInstr ⟨0x1B, a, 0⟩ s = doPop s wr := by
      interval_cases a <;> exact ⟨_, rfl⟩
    refine ⟨?_, ?_, ?_, ?_⟩
    · rw [hv, stepErr_pushVal]
      by_cases h2 : s.sp < 2 <;> simp [h2]
    · intro h2
      rw [hv]
      unfold pushVal
      rw [if_pos h2]
    · rw [hw, stepErr_doPop]
      by_cases h2 : 65534 < s.sp <;> simp [h2]
    · intro h2
      rw [hw]
      unfold doPop popVal
      rw [if_pos h2]
  · intro ha
    have h0 : a ≠ 0 := by omega
    have h1 : a ≠ 1 := by omega
    have h2 : a ≠ 2 := by omega
    have h3 : a ≠ 3 := by omega
    constructor <;> simp [execInstr, h0, h1, h2, h3]

/-- Witness for the amended C5 statement at concrete inputs: PUSH 0
with SP = 0 overflows, and POP 4 is an invalid register. -/
theorem push_pop_error_conditions_witness :
    execInstr ⟨0x1A, 0, 0⟩ c5state = .fatal "Stack Overflow" c5state ∧
    execInstr ⟨0x1B, 4, 0⟩ c5state = .fatal "Invalid POP register" c5state :=
  ⟨((push_pop_error_conditions c5state 0).1 (by decide)).2.1 (by decide),
   ((push_pop_error_conditions c5state 4).2 (by decide)).2⟩

/-- Modelled from the spec's words, for comparison with hltDump: the
bytes at addresses 0xFFE0 .. 0xFFFF ("the last 32 bytes of memory"). -/
def specLastBytes (m : Nat → Nat) : List Nat :=
  (List.range 32).map (fun k => m (65504 + k) % 256)

def c6mem : Nat → Nat := fun a => if a = 65535 then 7 else 0
def c6state : VMState := ⟨1, 2, 3, 4, 65535, 0, 0, c6mem⟩

/-- Claim C6 (counterexample): the HLT dump does not cover
0xFFE0..0xFFFF.  On a memory whose only nonzero byte is at 0xFFFF, the
dumped bytes (addresses 0xFFDF..0xFFFE) are all zero, while the claimed
range contains the 7. -/
theorem hlt_dump_misses_last_byte :
    execInstr ⟨0x02, 0, 0⟩ c6state =
      .ok c6state [Ev.halt 1 2 3 4 65535 (hltDump c6mem)] ∧
    hltDump c6mem ≠ specLastBytes c6mem := by
  refine ⟨rfl, by decide⟩

/-- Claim C6 (amended): when the byte at IP is HLT, the VM prints the
register line (AX, BX, CX, DX, SP) and the hex dump of the 32 bytes at
addresses 0xFFDF..0xFFFE, and the execute loop terminates normally. -/
theorem hlt_prints_dump_and_halts (s : VMState) (fuel : Nat)
    (h : readMem s.mem s.ip = 2) :
    run (fuel + 1) s =
      ([Ev.halt s.ax s.bx s.cx s.dx s.sp (hltDump s.mem)],
       .halted { s with ip := (s.ip + 1) % 65536 }) ∧
    hltDump s.mem = (List.range 32).map (fun k => s.mem (65503 + k) % 256) := by
  constructor
  · have hsz : getInstructionSize 2 = 1 := by decide
    have hfetch : fetchInstr s = (⟨2, 0, 0⟩, { s with ip := (s.ip + 1) % 65536 }) := by
      unfold fetchInstr
      rw [h]
      dsimp only
      rw [hsz]
      norm_num
    show (match fetchInstr s with
      | (i, s1) =>
        match execInstr i s1 with
        | .fatal msg t => ([], RunResult.fatalErr msg t)
        | .ok s2 evs =>
          if i.op = 0x02 then (evs, RunResult.halted s2)
          else
            match run fuel s2 with
            | (evs2, r) => (evs ++ evs2, r)) =
      ([Ev.halt s.ax s.bx s.cx s.dx s.sp (hltDump s.mem)],
       RunResult.halted { s with ip := (s.ip + 1) % 65536 })
    rw [hfetch]
    rfl
  · rfl

/-- Witness for the amended C6 statement: a machine whose memory holds
a single HLT byte at address 0 halts in one step with the dump. -/
def c6wmem : Nat → Nat := fun a => if a = 0 then 2 else 0
def c6wstate : VMState := ⟨0, 0, 0, 0, 65535, 0, 0, c6wmem⟩

theorem hlt_prints_dump_and_halts_witness :
    run 1 c6wstate =
      ([Ev.halt 0 0 0 0 65535 (hltDump c6wmem)],
       .halted { c6wstate with ip := 1 }) :=
  (hlt_prints_dump_and_halts c6wstate 0 (by decide)).1

/-- uint16_t subtraction agrees with integer subtraction mod 2^16. -/
theorem sub16_eq_int (a b : Nat) (ha : a < 65536) (hb : b < 65536) :
    sub16 a b = (((a : Int) - (b : Int)) % 65536).toNat := by
  unfold sub16
  omega

/-- Claim C7: ADD, SUB and MUL set AX to AX+BX, AX−BX, AX·BX reduced
modulo 2^16; DIV with BX = 0 is the fatal "Division by zero" leaving
the state (hence AX) unchanged, and with BX ≠ 0 sets AX to the Nat
quotient AX / BX. -/
theorem arithmetic_ops_semantics (s : VMState) (ha : s.ax < 65536) (hb : s.bx < 65536) :
    execInstr ⟨0x20, 0, 0⟩ s = .ok { s with ax := (s.ax + s.bx) % 65536 } [] ∧
    execInstr ⟨0x21, 0, 0⟩ s =
      .ok { s with ax := (((s.ax : Int) - (s.bx : Int)) % 65536).toNat } [] ∧
    execInstr ⟨0x22, 0, 0⟩ s = .ok { s with ax := s.ax * s.bx % 65536 } [] ∧
    (s.bx = 0 → execInstr ⟨0x23, 0, 0⟩ s = .fatal "Division by zero" s) ∧
    (s.bx ≠ 0 → execInstr ⟨0x23, 0, 0⟩ s = .ok { s with ax := s.ax / s.bx } []) := by
  refine ⟨rfl, ?_, rfl, ?_, ?_⟩
  · rw [show execInstr ⟨0x21, 0, 0⟩ s = .ok { s with ax := sub16 s.ax s.bx } [] from rfl,
      sub16_eq_int s.ax s.bx ha hb]
  · intro h
    simp [execInstr, h]
  · intro h
    simp [execInstr, h]

def c7state : VMState := ⟨10, 3, 0, 0, 65535, 0, 0, fun _ => 0⟩
def c7stateZ : VMState := ⟨10, 0, 0, 0, 65535, 0, 0, fun _ => 0⟩

/-- Witness for C7 at concrete states: 10/3 divides to 3, and division
by zero is fatal with the state unchanged. -/
theorem arithmetic_ops_semantics_witness :
    execInstr ⟨0x23, 0, 0⟩ c7state = .ok { c7state with ax := 3 } [] ∧
    execInstr ⟨0x23, 0, 0⟩ c7stateZ = .fatal "Division by zero" c7stateZ :=
  ⟨(arithmetic_ops_semantics c7state (by decide) (by decide)).2.2.2.2 (by decide),
   (arithmetic_ops_semantics c7stateZ (by decide) (by decide)).2.2.2.1 rfl⟩

/-- A power-of-two mask: setting it with lor touches exactly that bit. -/
theorem setBit_testBit (f k i : Nat) :
    (f ||| 2 ^ k).testBit i = if i = k then true else f.testBit i := by
  rw [Nat.testBit_lor]
  by_cases h : i = k
  · subst h
    simp
  · rw [Nat.testBit_two_pow_of_ne (fun hk => h hk.symm)]
    simp [h]

/-- A power-of-two mask below 2^16: clearing it with land of the
complement touches exactly that bit, for 16-bit flag values. -/
theorem clearBit_testBit (f k i : Nat) (hf : f < 65536) (hk : k < 16) :
    (f &&& (65535 ^^^ 2 ^ k)).testBit i = if i = k then false else f.testBit i := by
  rw [Nat.testBit_land, Nat.testBit_xor]
  have h65535 : (65535 : Nat) = 2 ^ 16 - 1 := by norm_num
  rw [h65535, Nat.testBit_two_pow_sub_one]
  by_cases h : i = k
  · subst h
    simp [hk]
  · rw [Nat.testBit_two_pow_of_ne (fun hk2 => h hk2.symm)]
    by_cases hi : i < 16
    · simp [hi, h]
    · have : f.testBit i = false := by
        refine Nat.testBit_lt_two_pow (lt_of_lt_of_le hf ?_)
        calc (65536 : Nat) = 2 ^ 16 := by norm_num
        _ ≤ 2 ^ i := Nat.pow_le_pow_right (by norm_num) (by omega)
      simp [hi, h, this]

/-- Claim C8: each of STE/CLE/STG/CLG/STH/CLH/STL/CLL rewrites only the
FLAGS register (the record update leaves AX, BX, CX, DX, SP, IP and
memory untouched), and the new FLAGS value agrees with the old one on
every bit except the single affected one (Equal=bit 3, Greater=bit 2,
Higher=bit 1, Lower=bit 0). -/
theorem flag_ops_touch_single_bit (s : VMState) (hf : s.flags < 65536) :
    (execInstr ⟨0x10, 0, 0⟩ s = .ok { s with flags := s.flags ||| 8 } [] ∧
      ∀ i, (s.flags ||| 8).testBit i = if i = 3 then true else s.flags.testBit i) ∧
    (execInstr ⟨0x11, 0, 0⟩ s = .ok { s with flags := s.flags &&& (65535 ^^^ 8) } [] ∧
      ∀ i, (s.flags &&& (65535 ^^^ 8)).testBit i =
        if i = 3 then false else s.flags.testBit i) ∧
    (execInstr ⟨0x12, 0, 0⟩ s = .ok { s with flags := s.flags ||| 4 } [] ∧
      ∀ i, (s.flags ||| 4).testBit i = if i = 2 then true else s.flags.testBit i) ∧
    (execInstr ⟨0x13, 0, 0⟩ s = .ok { s with flags := s.flags &&& (65535 ^^^ 4) } [] ∧
      ∀ i, (s.flags &&& (65535 ^^^ 4)).testBit i =
        if i = 2 then false else s.flags.testBit i) ∧
    (execInstr ⟨0x14, 0, 0⟩ s = .ok { s with flags := s.flags ||| 2 } [] ∧
      ∀ i, (s.flags ||| 2).testBit i = if i = 1 then true else s.flags.testBit i) ∧
    (execInstr ⟨0x15, 0, 0⟩ s = .ok { s with flags := s.flags &&& (65535 ^^^ 2) } [] ∧
      ∀ i, (s.flags &&& (65535 ^^^ 2)).testBit i =
        if i = 1 then false else s.flags.testBit i) ∧
    (execInstr ⟨0x16, 0, 0⟩ s = .ok { s with flags := s.flags ||| 1 } [] ∧
      ∀ i, (s.flags ||| 1).testBit i = if i = 0 then true else s.flags.testBit i) ∧
    (execInstr ⟨0x17, 0, 0⟩ s = .ok { s with flags := s.flags &&& (65535 ^^^ 1) } [] ∧
      ∀ i, (s.flags &&& (65535 ^^^ 1)).testBit i =
        if i = 0 then false else s.flags.testBit i) := by
  have h8 : (8 : Nat) = 2 ^ 3 := by norm_num
  have h4 : (4 : Nat) = 2 ^ 2 := by norm_num
  have h2 : (2 : Nat) = 2 ^ 1 := by norm_num
  have h1 : (1 : Nat) = 2 ^ 0 := by norm_num
  refine ⟨⟨rfl, ?_⟩, ⟨rfl, ?_⟩, ⟨rfl, ?_⟩, ⟨rfl, ?_⟩, ⟨rfl, ?_⟩, ⟨rfl, ?_⟩, ⟨rfl, ?_⟩,
    ⟨rfl, ?_⟩⟩ <;> intro i
  · rw [h8, setBit_testBit]
  · rw [h8, clearBit_testBit s.flags 3 i hf (by norm_num)]
  · rw [h4, setBit_testBit]
  · rw [h4, clearBit_testBit s.flags 2 i hf (by norm_num)]
  · rw [h2, setBit_testBit]
  · rw [h2, clearBit_testBit s.flags 1 i hf (by norm_num)]
  · rw [h1, setBit_testBit]
  · rw [h1, clearBit_testBit s.flags 0 i hf (by norm_num)]

def c8state : VMState := ⟨0, 0, 0, 0, 65535, 0, 5, fun _ => 0⟩

/-- Witness for C8 at a concrete state with FLAGS = 5: STE sets bit 3
(5 ||| 8 = 13) and CLL clears bit 0 (5 &&& ~1 = 4), all other state
fields unchanged. -/
theorem flag_ops_touch_single_bit_witness :
    execInstr ⟨0x10, 0, 0⟩ c8state = .ok { c8state with flags := 13 } [] ∧
    execInstr ⟨0x17, 0, 0⟩ c8state = .ok { c8state with flags := 4 } [] :=
  ⟨((flag_ops_touch_single_bit c8state (by decide)).1).1,
   ((flag_ops_touch_single_bit c8state (by decide)).2.2.2.2.2.2.2).1⟩

/-! ## Codegen invariants: jump placeholders, label targets, registers -/

/-- Membership in a list gives a getElem? index. -/
theorem getElem?_of_mem {α : Type} (l : List α) (x : α) (h : x ∈ l) :
    ∃ i : Nat, l[i]? = some x := by
  obtain ⟨⟨i, hi⟩, he⟩ := List.mem_iff_get.1 h
  refine ⟨i, ?_⟩
  rw [List.getElem?_eq_getElem hi, ← he]
  simp [List.get_eq_getElem]

/-- getElem? of the left part of an append. -/
theorem getElem?_append_left {α : Type} (l1 l2 : List α) (i : Nat) (h : i < l1.length) :
    (l1 ++ l2)[i]? = l1[i]? := by
  rw [List.getElem?_append, if_pos h]

/-- A list and a longer list it is a prefix of agree below its length. -/
theorem prefix_getElem?_eq {α : Type} {l1 l2 : List α} (hp : l1 <+: l2) (i : Nat)
    (h : i < l1.length) : l2[i]? = l1[i]? := by
  obtain ⟨t, rfl⟩ := hp
  exact getElem?_append_left l1 t i h

/-- The step relation that every codegen action (a primitive emit or a
complete statement lowering) satisfies: instructions only grow, the
label counter only grows, marked labels stay marked, label-target
values are either untouched or in range, placeholders only accumulate,
new placeholders sit on jump instructions and use ids below the
counter, and every jump instruction added carries placeholder operand 0
and is recorded as a placeholder. -/
structure GS (s s' : CGState) : Prop where
  pre : s.instructions <+: s'.instructions
  cnt : s.labelCounter ≤ s'.labelCounter
  keepSome : ∀ id, (lookT s id).isSome → (lookT s' id).isSome
  tBound : ∀ id v, lookT s' id = some v →
    lookT s id = some v ∨ v ≤ s'.instructions.length
  kBound : ∀ id, (lookT s' id).isSome →
    (lookT s id).isSome ∨ id < s'.labelCounter
  phKeep : ∀ p ∈ s.labelPlaceholders, p ∈ s'.labelPlaceholders
  phNewJump : ∀ p ∈ s'.labelPlaceholders, p ∈ s.labelPlaceholders ∨
    (p.2 < s'.labelCounter ∧ ∃ ins, s'.instructions[p.1]? = some ins ∧ isJump ins.op)
  jmpNew : ∀ i ins, s'.instructions[i]? = some ins → isJump ins.op →
    s.instructions.length ≤ i → ins.a1 = 0 ∧ ∃ id, (i, id) ∈ s'.labelPlaceholders

/-- The codegen state invariant on labels and placeholders: label ids
in the target map are below the counter, target values are in range,
placeholders sit on jump instructions and use ids below the counter,
and jump instructions are exactly the placeholder positions, still
carrying operand 0. -/
structure CGInv (s : CGState) : Prop where
  kLt : ∀ id, (lookT s id).isSome → id < s.labelCounter
  tLe : ∀ id v, lookT s id = some v → v ≤ s.instructions.length
  phIdx : ∀ p ∈ s.labelPlaceholders, ∃ ins, s.instructions[p.1]? = some ins ∧ isJump ins.op
  phLt : ∀ p ∈ s.labelPlaceholders, p.2 < s.labelCounter
  jmpPh : ∀ i ins, s.instructions[i]? = some ins → isJump ins.op →
    ins.a1 = 0 ∧ ∃ id, (i, id) ∈ s.labelPlaceholders

/-- The register-allocation invariant: nextRegister counts the symbol
table, and once four variables are bound a POP with operand 4 has been
emitted. -/
structure RegInv (s : CGState) : Prop where
  nreg : s.nextRegister = s.symbolTable.length + 1
  pop4 : 4 ≤ s.symbolTable.length → (⟨0x1B, 4, 0⟩ : Instruction) ∈ s.instructions

theorem GS.refl (s : CGState) : GS s s where
  pre := List.prefix_rfl
  cnt := Nat.le_refl _
  keepSome := fun _ h => h
  tBound := fun _ _ h => Or.inl h
  kBound := fun _ h => Or.inl h
  phKeep := fun _ h => h
  phNewJump := fun _ h => Or.inl h
  jmpNew := fun i ins hi _ hge =>
    (Nat.not_lt.2 hge (List.getElem?_eq_some.1 hi).1).elim

theorem GS.trans {s1 s2 s3 : CGState} (a : GS s1 s2) (b : GS s2 s3) : GS s1 s3 where
  pre := a.pre.trans b.pre
  cnt := Nat.le_trans a.cnt b.cnt
  keepSome := fun id h => b.keepSome id (a.keepSome id h)
  tBound := fun id v h => by
    rcases b.tBound id v h with h2 | h2
    · rcases a.tBound id v h2 with h3 | h3
      · exact Or.inl h3
      · exact Or.inr (Nat.le_trans h3 b.pre.length_le)
    · exact Or.inr h2
  kBound := fun id h => by
    rcases b.kBound id h with h2 | h2
    · rcases a.kBound id h2 with h3 | h3
      · exact Or.inl h3
      · exact Or.inr (Nat.lt_of_lt_of_le h3 b.cnt)
    · exact Or.inr h2
  phKeep := fun p h => b.phKeep p (a.phKeep p h)
  phNewJump := fun p h => by
    rcases b.phNewJump p h with h2 | h2
    · rcases a.phNewJump p h2 with h3 | ⟨h3, ins, h4, h5⟩
      · exact Or.inl h3
      · refine Or.inr ⟨Nat.lt_of_lt_of_le h3 b.cnt, ins, ?_, h5⟩
        rw [prefix_getElem?_eq b.pre p.1 (List.getElem?_eq_some.1 h4).1]
        exact h4
    · exact Or.inr h2
  jmpNew := fun i ins hi hj hge => by
    by_cases h2 : s2.instructions.length ≤ i
    · exact b.jmpNew i ins hi hj h2
    · push_neg at h2
      have hi2 : s2.instructions[i]? = some ins := by
        rw [← prefix_getElem?_eq b.pre i h2]
        exact hi
      obtain ⟨h3, id, h4⟩ := a.jmpNew i ins hi2 hj hge
      exact ⟨h3, id, b.phKeep (i, id) h4⟩

/-- GS transports the label invariant. -/
theorem CGInv.transport {s s' : CGState} (hs : CGInv s) (g : GS s s') : CGInv s' where
  kLt := fun id h => by
    rcases g.kBound id h with h2 | h2
    · exact Nat.lt_of_lt_of_le (hs.kLt id h2) g.cnt
    · exact h2
  tLe := fun id v h => by
    rcases g.tBound id v h with h2 | h2
    · exact Nat.le_trans (hs.tLe id v h2) g.pre.length_le
    · exact h2
  phIdx := fun p hp => by
    rcases g.phNewJump p hp with h2 | ⟨-, h2⟩
    · obtain ⟨ins, hi, hj⟩ := hs.phIdx p h2
      refine ⟨ins, ?_, hj⟩
      rw [prefix_getElem?_eq g.pre p.1 (List.getElem?_eq_some.1 hi).1]
      exact hi
    · exact h2
  phLt := fun p hp => by
    rcases g.phNewJump p hp with h2 | ⟨h2, -⟩
    · exact Nat.lt_of_lt_of_le (hs.phLt p h2) g.cnt
    · exact h2
  jmpPh := fun i ins hi hj => by
    by_cases h2 : s.instructions.length ≤ i
    · exact g.jmpNew i ins hi hj h2
    · push_neg at h2
      have hi2 : s.instructions[i]? = some ins := by
        rw [← prefix_getElem?_eq g.pre i h2]
        exact hi
      obtain ⟨h3, id, h4⟩ := hs.jmpPh i ins hi2 hj
      exact ⟨h3, id, g.phKeep (i, id) h4⟩

/-- The register invariant survives any step that keeps the symbol
table and nextRegister and only appends instructions. -/
theorem RegInv.mono {s s' : CGState} (hs : RegInv s)
    (htbl : s'.symbolTable = s.symbolTable) (hnr : s'.nextRegister = s.nextRegister)
    (hpre : s.instructions <+: s'.instructions) : RegInv s' where
  nreg := by rw [hnr, htbl, hs.nreg]
  pop4 := fun h => by
    obtain ⟨t, ht⟩ := hpre
    rw [← ht]
    exact List.mem_append_left _ (hs.pop4 (by rw [htbl] at h; exact h))

/-- The set of variable names in the symbol table. -/
def keysF (s : CGState) : Finset String := (s.symbolTable.map Prod.fst).toFinset

theorem lookT_emit (s : CGState) (i : Instruction) (x : Nat) :
    lookT (emit s i) x = lookT s x := rfl

theorem lookT_ejp (s : CGState) (op id x : Nat) :
    lookT (emitJumpPlaceholder s op id) x = lookT s x := rfl

theorem lookT_mark_self (s : CGState) (id : Nat) :
    lookT (markLabel s id) id = some s.instructions.length := by
  simp [markLabel, lookT]

theorem lookT_mark_ne (s : CGState) (id x : Nat) (h : x ≠ id) :
    lookT (markLabel s id) x = lookT s x := by
  have hb : (x == id) = false := by simp [h]
  simp [markLabel, lookT, List.lookup, hb]

theorem lookT_mark_isSome (s : CGState) (id x : Nat) (h : (lookT s x).isSome) :
    (lookT (markLabel s id) x).isSome := by
  by_cases hx : x = id
  · subst hx
    rw [lookT_mark_self]
    rfl
  · rw [lookT_mark_ne s id x hx]
    exact h

/-- Appending non-jump instructions is a GS step. -/
theorem append_nonjump_GS (s : CGState) (l : List Instruction)
    (hl : ∀ ins ∈ l, ¬ isJump ins.op) :
    GS s { s with instructions := s.instructions ++ l } where
  pre := List.prefix_append _ _
  cnt := Nat.le_refl _
  keepSome := fun _ h => h
  tBound := fun _ _ h => Or.inl h
  kBound := fun _ h => Or.inl h
  phKeep := fun _ h => h
  phNewJump := fun _ h => Or.inl h
  jmpNew := fun i ins hi hj hge => by
    rw [List.getElem?_append, if_neg (by omega)] at hi
    exact absurd hj (hl ins (by
      obtain ⟨hlt, he⟩ := List.getElem?_eq_some.1 hi
      rw [← he]
      exact List.getElem_mem hlt))

/-- Appending non-jump instructions preserves the invariant. -/
theorem append_nonjump_inv (s : CGState) (l : List Instruction)
    (hl : ∀ ins ∈ l, ¬ isJump ins.op) (hs : CGInv s) :
    CGInv { s with instructions := s.instructions ++ l } where
  kLt := hs.kLt
  tLe := fun id v h => Nat.le_trans (hs.tLe id v h) (by simp)
  phIdx := fun p hp => by
    obtain ⟨ins, hi, hj⟩ := hs.phIdx p hp
    refine ⟨ins, ?_, hj⟩
    rw [getElem?_append_left _ _ _ (List.getElem?_eq_some.1 hi).1]
    exact hi
  phLt := hs.phLt
  jmpPh := fun i ins hi hj => by
    by_cases hlt : i < s.instructions.length
    · rw [getElem?_append_left _ _ _ hlt] at hi
      exact hs.jmpPh i ins hi hj
    · rw [List.getElem?_append, if_neg hlt] at hi
      exact absurd hj (hl ins (by
        obtain ⟨hlt2, he⟩ := List.getElem?_eq_some.1 hi
        rw [← he]
        exact List.getElem_mem hlt2))

/-- genExpression emits no jump instruction. -/
theorem genExpression_no_jump (tbl : List (String × Nat)) (e : Expr) :
    ∀ ins ∈ genExpression tbl e, ¬ isJump ins.op := by
  induction e with
  | num n =>
    intro ins hins
    simp [genExpression] at hins
    subst hins
    simp [isJump]
  | var x =>
    intro ins hins
    rcases h : tbl.lookup x with - | r <;> rw [genExpression, h] at hins <;> simp at hins
    · subst hins
      simp [isJump]
    · rcases hins with h2 | h2 <;> subst h2 <;> simp [isJump]
  | bin op l r ihl ihr =>
    intro ins hins
    rw [genExpression.eq_def] at hins
    dsimp only at hins
    simp only [List.mem_append] at hins
    rcases hins with ((((h2 | h2) | h2) | h2) | h2)
    · exact ihl ins h2
    · simp at h2
      subst h2
      simp [isJump]
    · exact ihr ins h2
    · simp at h2
      rcases h2 with h2 | h2 | h2 <;> subst h2 <;> simp [isJump]
    · cases op <;> simp at h2 <;> first
        | (subst h2; simp [isJump])
        | (rcases h2 with h2 | h2 <;> subst h2 <;> simp [isJump])

/-- The normalize-condition prelude contains no jumps. -/
theorem condPrelude_no_jump : ∀ ins ∈ condPrelude, ¬ isJump ins.op := by decide

/-- Bumping the label counter (the two newLabel calls) is a GS step. -/
theorem counter_GS (s : CGState) (k : Nat) :
    GS s { s with labelCounter := s.labelCounter + k } where
  pre := List.prefix_rfl
  cnt := by simp
  keepSome := fun _ h => h
  tBound := fun _ _ h => Or.inl h
  kBound := fun _ h => Or.inl h
  phKeep := fun _ h => h
  phNewJump := fun _ h => Or.inl h
  jmpNew := fun i ins hi _ hge =>
    (Nat.not_lt.2 hge (List.getElem?_eq_some.1 hi).1).elim

/-- Bumping the label counter preserves the label invariant. -/
theorem counter_inv (s : CGState) (k : Nat) (hs : CGInv s) :
    CGInv { s with labelCounter := s.labelCounter + k } where
  kLt := fun id h => Nat.lt_of_lt_of_le (hs.kLt id h) (by simp)
  tLe := hs.tLe
  phIdx := hs.phIdx
  phLt := fun p hp => Nat.lt_of_lt_of_le (hs.phLt p hp) (by simp)
  jmpPh := hs.jmpPh

/-- Rebinding the symbol table and nextRegister is a GS step. -/
theorem table_GS (s : CGState) (tbl2 : List (String × Nat)) (nr2 : Nat) :
    GS s { s with symbolTable := tbl2, nextRegister := nr2 } where
  pre := List.prefix_rfl
  cnt := Nat.le_refl _
  keepSome := fun _ h => h
  tBound := fun _ _ h => Or.inl h
  kBound := fun _ h => Or.inl h
  phKeep := fun _ h => h
  phNewJump := fun _ h => Or.inl h
  jmpNew := fun i ins hi _ hge =>
    (Nat.not_lt.2 hge (List.getElem?_eq_some.1 hi).1).elim

/-- Rebinding the symbol table preserves the label invariant. -/
theorem table_inv (s : CGState) (tbl2 : List (String × Nat)) (nr2 : Nat) (hs : CGInv s) :
    CGInv { s with symbolTable := tbl2, nextRegister := nr2 } where
  kLt := hs.kLt
  tLe := hs.tLe
  phIdx := hs.phIdx
  phLt := hs.phLt
  jmpPh := hs.jmpPh

/-- Marking a previously allocated label is a GS step. -/
theorem mark_GS (s : CGState) (id : Nat) (hid : id < s.labelCounter) :
    GS s (markLabel s id) where
  pre := List.prefix_rfl
  cnt := Nat.le_refl _
  keepSome := fun x h => lookT_mark_isSome s id x h
  tBound := fun x v h => by
    by_cases hx : x = id
    · subst hx
      rw [lookT_mark_self] at h
      exact Or.inr (by simp [markLabel] at h ⊢; omega)
    · rw [lookT_mark_ne s id x hx] at h
      exact Or.inl h
  kBound := fun x h => by
    by_cases hx : x = id
    · subst hx
      exact Or.inr hid
    · rw [lookT_mark_ne s id x hx] at h
      exact Or.inl h
  phKeep := fun _ h => h
  phNewJump := fun _ h => Or.inl h
  jmpNew := fun i ins hi _ hge =>
    (Nat.not_lt.2 hge (List.getElem?_eq_some.1 hi).1).elim

/-- Marking a previously allocated label preserves the label invariant. -/
theorem mark_inv (s : CGState) (id : Nat) (hid : id < s.labelCounter) (hs : CGInv s) :
    CGInv (markLabel s id) where
  kLt := fun x h => by
    by_cases hx : x = id
    · subst hx
      exact hid
    · rw [lookT_mark_ne s id x hx] at h
      exact hs.kLt x h
  tLe := fun x v h => by
    by_cases hx : x = id
    · subst hx
      rw [lookT_mark_self] at h
      simp [markLabel] at h ⊢
      omega
    · rw [lookT_mark_ne s id x hx] at h
      exact hs.tLe x v h
  phIdx := hs.phIdx
  phLt := hs.phLt
  jmpPh := hs.jmpPh

/-- Emitting a jump placeholder (operand 0, recorded with an already
allocated label id) is a GS step. -/
theorem ejp_GS (s : CGState) (op id : Nat) (hj : isJump op) (hid : id < s.labelCounter) :
    GS s (emitJumpPlaceholder s op id) where
  pre := List.prefix_append _ _
  cnt := Nat.le_refl _
  keepSome := fun _ h => h
  tBound := fun _ _ h => Or.inl h
  kBound := fun _ h => Or.inl h
  phKeep := fun p h => List.mem_append_left _ h
  phNewJump := fun p hp => by
    rcases List.mem_append.1 hp with h2 | h2
    · exact Or.inl h2
    · simp at h2
      subst h2
      exact Or.inr ⟨hid, ⟨op, 0, 0⟩, List.getElem?_concat_length _ _, hj⟩
  jmpNew := fun i ins hi _ hge => by
    simp only [emitJumpPlaceholder, emit] at hi
    rcases Nat.eq_or_lt_of_le hge with he | hlt
    · rw [← he, List.getElem?_concat_length] at hi
      cases hi
      exact ⟨rfl, id, List.mem_append_right _ (by simp; omega)⟩
    · rw [List.getElem?_append, if_neg (by omega)] at hi
      rw [List.getElem?_eq_none (by simp; omega)] at hi
      cases hi

/-- Emitting a jump placeholder preserves the label invariant. -/
theorem ejp_inv (s : CGState) (op id : Nat) (hj : isJump op) (hid : id < s.labelCounter)
    (hs : CGInv s) : CGInv (emitJumpPlaceholder s op id) where
  kLt := hs.kLt
  tLe := fun x v h => Nat.le_trans (hs.tLe x v h) (by simp [emitJumpPlaceholder, emit])
  phIdx := fun p hp => by
    rcases List.mem_append.1 hp with h2 | h2
    · obtain ⟨ins, hi, hj2⟩ := hs.phIdx p h2
      refine ⟨ins, ?_, hj2⟩
      show (s.instructions ++ [(⟨op, 0, 0⟩ : Instruction)])[p.1]? = some ins
      rw [getElem?_append_left _ _ _ (List.getElem?_eq_some.1 hi).1]
      exact hi
    · simp at h2
      subst h2
      exact ⟨⟨op, 0, 0⟩, List.getElem?_concat_length _ _, hj⟩
  phLt := fun p hp => by
    rcases List.mem_append.1 hp with h2 | h2
    · exact hs.phLt p h2
    · simp at h2
      subst h2
      exact hid
  jmpPh := fun i ins hi hj2 => by
    simp only [emitJumpPlaceholder, emit] at hi
    by_cases hlt : i < s.instructions.length
    · rw [getElem?_append_left _ _ _ hlt] at hi
      obtain ⟨h3, id2, h4⟩ := hs.jmpPh i ins hi hj2
      exact ⟨h3, id2, List.mem_append_left _ h4⟩
    · rcases Nat.eq_or_lt_of_le (Nat.le_of_not_lt hlt) with he | hlt2
      · rw [← he, List.getElem?_concat_length] at hi
        cases hi
        exact ⟨rfl, id, List.mem_append_right _ (by simp; omega)⟩
      · rw [List.getElem?_append, if_neg (by omega)] at hi
        rw [List.getElem?_eq_none (by simp; omega)] at hi
        cases hi

/-- All labels allocated between two states have been marked by the
later state. -/
def NewMarked (s s' : CGState) : Prop :=
  ∀ id, s.labelCounter ≤ id → id < s'.labelCounter → (lookT s' id).isSome

/-- A lookup hit means the key is in the table. -/
theorem lookup_mem_keys {tbl : List (String × Nat)} {n : String} {r : Nat}
    (h : List.lookup n tbl = some r) : n ∈ tbl.map Prod.fst := by
  induction tbl with
  | nil => simp [List.lookup] at h
  | cons p rest ih =>
    by_cases hb : n = p.1
    · simp [hb]
    · have hbe : (n == p.1) = false := by simp [hb]
      rw [List.lookup, hbe] at h
      simp [ih h]

/-- keysF depends only on the symbol table. -/
theorem keysF_congr {s s' : CGState} (h : s'.symbolTable = s.symbolTable) :
    keysF s' = keysF s := by
  unfold keysF
  rw [h]

/-- The combined specification of a statement-lowering step. -/
def LowerSpec (s s' : CGState) (names : Finset String) : Prop :=
  GS s s' ∧ CGInv s' ∧ RegInv s' ∧ NewMarked s s' ∧ keysF s' = keysF s ∪ names

/-- The If lowering (condition code, normalize prelude, JZ placeholder,
then-block, JMP placeholder, else label, else-block, end label)
satisfies the statement contract, assuming the two block-lowering
functions do on every invariant state. -/
theorem if_case_spec (s sA s1 s2 s3 s4 s5 s6 s7 s9 : CGState)
    (ce1 ce2 : List Instruction) (rec1 rec2 : CGState → CGState) (N1 N2 : Finset String)
    (eA : sA = { s with instructions := s.instructions ++ ce1 })
    (e1 : s1 = { sA with instructions := sA.instructions ++ ce2 })
    (e2 : s2 = { s1 with labelCounter := s1.labelCounter + 2 })
    (e3 : s3 = emitJumpPlaceholder s2 0x32 s.labelCounter)
    (e4 : s4 = rec1 s3)
    (e5 : s5 = emitJumpPlaceholder s4 0x31 (s.labelCounter + 1))
    (e6 : s6 = markLabel s5 s.labelCounter)
    (e7 : s7 = rec2 s6)
    (e9 : s9 = markLabel s7 (s.labelCounter + 1))
    (hce1 : ∀ ins ∈ ce1, ¬ isJump ins.op) (hce2 : ∀ ins ∈ ce2, ¬ isJump ins.op)
    (hrec1 : ∀ t, CGInv t → RegInv t → LowerSpec t (rec1 t) N1)
    (hrec2 : ∀ t, CGInv t → RegInv t → LowerSpec t (rec2 t) N2)
    (h1 : CGInv s) (h2 : RegInv s) :
    LowerSpec s s9 (N1 ∪ N2) := by
  have cA : sA.labelCounter = s.labelCounter := by rw [eA]
  have c1 : s1.labelCounter = s.labelCounter := by rw [e1, eA]
  have c2 : s2.labelCounter = s.labelCounter + 2 := by rw [e2, e1, eA]
  have c3 : s3.labelCounter = s.labelCounter + 2 := by rw [e3]; exact c2
  have gA : GS s sA := by rw [eA]; exact append_nonjump_GS s ce1 hce1
  have iA : CGInv sA := by rw [eA]; exact append_nonjump_inv s ce1 hce1 h1
  have g1 : GS sA s1 := by rw [e1]; exact append_nonjump_GS sA ce2 hce2
  have i1 : CGInv s1 := by rw [e1]; exact append_nonjump_inv sA ce2 hce2 iA
  have g2 : GS s1 s2 := by rw [e2]; exact counter_GS s1 2
  have i2 : CGInv s2 := by rw [e2]; exact counter_inv s1 2 i1
  have g3 : GS s2 s3 := by
    rw [e3]
    exact ejp_GS s2 0x32 s.labelCounter (by simp [isJump]) (by rw [c2]; omega)
  have i3 : CGInv s3 := by
    rw [e3]
    exact ejp_inv s2 0x32 s.labelCounter (by simp [isJump]) (by rw [c2]; omega) i2
  have r3 : RegInv s3 := by
    refine RegInv.mono h2 ?_ ?_ (gA.pre.trans (g1.pre.trans (g2.pre.trans g3.pre)))
    · rw [e3, e2, e1, eA]
      rfl
    · rw [e3, e2, e1, eA]
      rfl
  obtain ⟨g34, i4, r4, nm4, k4⟩ := e4 ▸ hrec1 s3 i3 r3
  have c4 : s.labelCounter + 2 ≤ s4.labelCounter := by rw [← c3]; exact g34.cnt
  have g5 : GS s4 s5 := by
    rw [e5]
    exact ejp_GS s4 0x31 (s.labelCounter + 1) (by simp [isJump]) (by omega)
  have i5 : CGInv s5 := by
    rw [e5]
    exact ejp_inv s4 0x31 (s.labelCounter + 1) (by simp [isJump]) (by omega) i4
  have c5 : s5.labelCounter = s4.labelCounter := by rw [e5]; rfl
  have g6 : GS s5 s6 := by
    rw [e6]
    exact mark_GS s5 s.labelCounter (by omega)
  have i6 : CGInv s6 := by
    rw [e6]
    exact mark_inv s5 s.labelCounter (by omega) i5
  have c6 : s6.labelCounter = s4.labelCounter := by rw [e6]; exact c5
  have r6 : RegInv s6 := by
    refine RegInv.mono r4 ?_ ?_ (g5.pre.trans g6.pre)
    · rw [e6, e5]; rfl
    · rw [e6, e5]; rfl
  obtain ⟨g67, i7, r7, nm7, k7⟩ := e7 ▸ hrec2 s6 i6 r6
  have c7 : s4.labelCounter ≤ s7.labelCounter := by rw [← c6]; exact g67.cnt
  have g9 : GS s7 s9 := by
    rw [e9]
    exact mark_GS s7 (s.labelCounter + 1) (by omega)
  have i9 : CGInv s9 := by
    rw [e9]
    exact mark_inv s7 (s.labelCounter + 1) (by omega) i7
  have c9 : s9.labelCounter = s7.labelCounter := by rw [e9]; rfl
  refine ⟨gA.trans (g1.trans (g2.trans (g3.trans (g34.trans (g5.trans (g6.trans
    (g67.trans g9))))))), i9, ?_, ?_, ?_⟩
  · refine RegInv.mono r7 ?_ ?_ g9.pre
    · rw [e9]; rfl
    · rw [e9]; rfl
  · intro id hle hlt
    rw [c9] at hlt
    by_cases helse : id = s.labelCounter
    · have hm6 : (lookT s6 id).isSome := by
        rw [e6, helse, lookT_mark_self]
        rfl
      have hm7 := g67.keepSome id hm6
      rw [e9]
      exact lookT_mark_isSome s7 (s.labelCounter + 1) id hm7
    · by_cases hend : id = s.labelCounter + 1
      · rw [e9, hend, lookT_mark_self]
        rfl
      · have hge2 : s.labelCounter + 2 ≤ id := by omega
        by_cases h4 : id < s4.labelCounter
        · have hm4 : (lookT s4 id).isSome := nm4 id (by rw [c3]; omega) h4
          have hm7 : (lookT s7 id).isSome :=
            g67.keepSome id (g6.keepSome id (g5.keepSome id hm4))
          rw [e9]
          exact lookT_mark_isSome s7 (s.labelCounter + 1) id hm7
        · have hm7 : (lookT s7 id).isSome := nm7 id (by omega) hlt
          rw [e9]
          exact lookT_mark_isSome s7 (s.labelCounter + 1) id hm7
  · have k9 : keysF s9 = keysF s7 := keysF_congr (by rw [e9]; rfl)
    have k6 : keysF s6 = keysF s4 := keysF_congr (by rw [e6, e5]; rfl)
    have k3 : keysF s3 = keysF s := keysF_congr (by rw [e3, e2, e1, eA]; rfl)
    rw [k9, k7, k6, k4, k3, Finset.union_assoc]

/-- The While lowering (condition label, condition code, prelude, JZ
placeholder, body, JMP back, end label) satisfies the statement
contract, assuming the body-lowering function does. -/
theorem while_case_spec (s s1 s2 sB s3 s4 s5 s6 s9 : CGState)
    (ce1 ce2 : List Instruction) (rec : CGState → CGState) (N : Finset String)
    (e1 : s1 = { s with labelCounter := s.labelCounter + 2 })
    (e2 : s2 = markLabel s1 s.labelCounter)
    (eB : sB = { s2 with instructions := s2.instructions ++ ce1 })
    (e3 : s3 = { sB with instructions := sB.instructions ++ ce2 })
    (e4 : s4 = emitJumpPlaceholder s3 0x32 (s.labelCounter + 1))
    (e5 : s5 = rec s4)
    (e6 : s6 = emitJumpPlaceholder s5 0x31 s.labelCounter)
    (e9 : s9 = markLabel s6 (s.labelCounter + 1))
    (hce1 : ∀ ins ∈ ce1, ¬ isJump ins.op) (hce2 : ∀ ins ∈ ce2, ¬ isJump ins.op)
    (hrec : ∀ t, CGInv t → RegInv t → LowerSpec t (rec t) N)
    (h1 : CGInv s) (h2 : RegInv s) :
    LowerSpec s s9 N := by
  have c1 : s1.labelCounter = s.labelCounter + 2 := by rw [e1]
  have g1 : GS s s1 := by rw [e1]; exact counter_GS s 2
  have i1 : CGInv s1 := by rw [e1]; exact counter_inv s 2 h1
  have g2 : GS s1 s2 := by
    rw [e2]
    exact mark_GS s1 s.labelCounter (by rw [c1]; omega)
  have i2 : CGInv s2 := by
    rw [e2]
    exact mark_inv s1 s.labelCounter (by rw [c1]; omega) i1
  have c2 : s2.labelCounter = s.labelCounter + 2 := by rw [e2]; exact c1
  have gB : GS s2 sB := by rw [eB]; exact append_nonjump_GS s2 ce1 hce1
  have iB : CGInv sB := by rw [eB]; exact append_nonjump_inv s2 ce1 hce1 i2
  have g3 : GS sB s3 := by rw [e3]; exact append_nonjump_GS sB ce2 hce2
  have i3 : CGInv s3 := by rw [e3]; exact append_nonjump_inv sB ce2 hce2 iB
  have c3 : s3.labelCounter = s.labelCounter + 2 := by rw [e3, eB]; exact c2
  have g4 : GS s3 s4 := by
    rw [e4]
    exact ejp_GS s3 0x32 (s.labelCounter + 1) (by simp [isJump]) (by rw [c3]; omega)
  have i4 : CGInv s4 := by
    rw [e4]
    exact ejp_inv s3 0x32 (s.labelCounter + 1) (by simp [isJump]) (by rw [c3]; omega) i3
  have c4 : s4.labelCounter = s.labelCounter + 2 := by rw [e4]; exact c3
  have r4 : RegInv s4 := by
    refine RegInv.mono h2 ?_ ?_
      (g1.pre.trans (g2.pre.trans (gB.pre.trans (g3.pre.trans g4.pre))))
    · rw [e4, e3, eB, e2, e1]; rfl
    · rw [e4, e3, eB, e2, e1]; rfl
  obtain ⟨g45, i5, r5, nm5, k5⟩ := e5 ▸ hrec s4 i4 r4
  have c5 : s.labelCounter + 2 ≤ s5.labelCounter := by rw [← c4]; exact g45.cnt
  have g6 : GS s5 s6 := by
    rw [e6]
    exact ejp_GS s5 0x31 s.labelCounter (by simp [isJump]) (by omega)
  have i6 : CGInv s6 := by
    rw [e6]
    exact ejp_inv s5 0x31 s.labelCounter (by simp [isJump]) (by omega) i5
  have c6 : s6.labelCounter = s5.labelCounter := by rw [e6]; rfl
  have g9 : GS s6 s9 := by
    rw [e9]
    exact mark_GS s6 (s.labelCounter + 1) (by omega)
  have i9 : CGInv s9 := by
    rw [e9]
    exact mark_inv s6 (s.labelCounter + 1) (by omega) i6
  have c9 : s9.labelCounter = s6.labelCounter := by rw [e9]; rfl
  refine ⟨g1.trans (g2.trans (gB.trans (g3.trans (g4.trans (g45.trans (g6.trans g9)))))),
    i9, ?_, ?_, ?_⟩
  · refine RegInv.mono r5 ?_ ?_ (g6.pre.trans g9.pre)
    · rw [e9, e6]; rfl
    · rw [e9, e6]; rfl
  · intro id hle hlt
    rw [c9, c6] at hlt
    by_cases hcond : id = s.labelCounter
    · have hm2 : (lookT s2 id).isSome := by
        rw [e2, hcond, lookT_mark_self]
        rfl
      have hm6 : (lookT s6 id).isSome :=
        g6.keepSome id ((gB.trans (g3.trans (g4.trans g45))).keepSome id hm2)
      rw [e9]
      exact lookT_mark_isSome s6 (s.labelCounter + 1) id hm6
    · by_cases hend : id = s.labelCounter + 1
      · rw [e9, hend, lookT_mark_self]
        rfl
      · have hm5 : (lookT s5 id).isSome := nm5 id (by omega) hlt
        have hm6 : (lookT s6 id).isSome := g6.keepSome id hm5
        rw [e9]
        exact lookT_mark_isSome s6 (s.labelCounter + 1) id hm6
  · have k9 : keysF s9 = keysF s6 := keysF_congr (by rw [e9]; rfl)
    have k6 : keysF s6 = keysF s5 := keysF_congr (by rw [e6]; rfl)
    have k4 : keysF s4 = keysF s := keysF_congr (by rw [e4, e3, eB, e2, e1]; rfl)
    rw [k9, k6, k5, k4]

mutual

/-- Master lemma: lowering one statement satisfies the statement
contract (GS step, label invariant, register invariant, all new labels
marked, symbol table keys grow by the Let-bound names). -/
theorem genStatement_spec (st : Stmt) : ∀ (s : CGState), CGInv s → RegInv s →
    LowerSpec s (genStatement s st) (letNames st) := by
  cases st with
  | letS name e =>
    intro s h1 h2
    have hexpr := genExpression_no_jump s.symbolTable e
    rcases hlk : List.lookup name s.symbolTable with - | reg
    · have hgen : genStatement s (.letS name e) =
          emit (emit { { s with instructions := s.instructions ++ genExpression s.symbolTable e }
                with symbolTable := (name, s.nextRegister % 65536) :: s.symbolTable,
                     nextRegister := s.nextRegister + 1 }
            ⟨0x1A, 0, 0⟩) ⟨0x1B, s.nextRegister % 65536, 0⟩ := by
        rw [genStatement, hlk]
      rw [hgen]
      have gE : GS s { s with instructions := s.instructions ++ genExpression s.symbolTable e } :=
        append_nonjump_GS s _ hexpr
      have iE := append_nonjump_inv s _ hexpr h1
      have gT := table_GS { s with instructions := s.instructions ++ genExpression s.symbolTable e }
        ((name, s.nextRegister % 65536) :: s.symbolTable) (s.nextRegister + 1)
      have iT := table_inv { s with instructions := s.instructions ++ genExpression s.symbolTable e }
        ((name, s.nextRegister % 65536) :: s.symbolTable) (s.nextRegister + 1) iE
      have hpush : ∀ ins ∈ [(⟨0x1A, 0, 0⟩ : Instruction)], ¬ isJump ins.op := by
        intro ins h
        simp at h
        subst h
        simp [isJump]
      have hpop : ∀ ins ∈ [(⟨0x1B, s.nextRegister % 65536, 0⟩ : Instruction)],
          ¬ isJump ins.op := by
        intro ins h
        simp at h
        subst h
        simp [isJump]
      have gP := append_nonjump_GS { { s with instructions := s.instructions ++ genExpression s.symbolTable e }
                with symbolTable := (name, s.nextRegister % 65536) :: s.symbolTable,
                     nextRegister := s.nextRegister + 1 } [⟨0x1A, 0, 0⟩] hpush
      have iP := append_nonjump_inv _ _ hpush iT
      have gF := append_nonjump_GS (emit { { s with instructions := s.instructions ++ genExpression s.symbolTable e }
                with symbolTable := (name, s.nextRegister % 65536) :: s.symbolTable,
                     nextRegister := s.nextRegister + 1 } ⟨0x1A, 0, 0⟩)
        [⟨0x1B, s.nextRegister % 65536, 0⟩] hpop
      have iF := append_nonjump_inv _ _ hpop iP
      refine ⟨gE.trans (gT.trans (gP.trans gF)), iF, ?_, ?_, ?_⟩
      · constructor
        · show s.nextRegister + 1 =
            ((name, s.nextRegister % 65536) :: s.symbolTable).length + 1
          rw [h2.nreg]
          simp
        · intro h4
          by_cases hlen : 4 ≤ s.symbolTable.length
          · have hm := h2.pop4 hlen
            exact List.mem_append_left _ (List.mem_append_left _ (List.mem_append_left _ hm))
          · have h4b : 4 ≤ s.symbolTable.length + 1 := h4
            have hl3 : s.symbolTable.length = 3 := by omega
            have hreg : s.nextRegister % 65536 = 4 := by
              have hnr := h2.nreg
              omega
            refine List.mem_append_right _ ?_
            rw [hreg]
            simp
      · intro id hle hlt
        have : (emit (emit { { s with instructions := s.instructions ++ genExpression s.symbolTable e }
                with symbolTable := (name, s.nextRegister % 65536) :: s.symbolTable,
                     nextRegister := s.nextRegister + 1 }
            ⟨0x1A, 0, 0⟩) ⟨0x1B, s.nextRegister % 65536, 0⟩).labelCounter = s.labelCounter := rfl
        omega
      · show keysF _ = keysF s ∪ letNames (.letS name e)
        have : keysF (emit (emit { { s with instructions := s.instructions ++ genExpression s.symbolTable e }
                with symbolTable := (name, s.nextRegister % 65536) :: s.symbolTable,
                     nextRegister := s.nextRegister + 1 }
            ⟨0x1A, 0, 0⟩) ⟨0x1B, s.nextRegister % 65536, 0⟩) = insert name (keysF s) := by
          show (((name, s.nextRegister % 65536) :: s.symbolTable).map Prod.fst).toFinset =
            insert name (keysF s)
          simp [keysF]
        rw [this, letNames, Finset.insert_eq, Finset.union_comm]
    · have hgen : genStatement s (.letS name e) =
          emit (emit { s with instructions := s.instructions ++ genExpression s.symbolTable e }
            ⟨0x1A, 0, 0⟩) ⟨0x1B, reg, 0⟩ := by
        rw [genStatement, hlk]
      rw [hgen]
      have gE : GS s { s with instructions := s.instructions ++ genExpression s.symbolTable e } :=
        append_nonjump_GS s _ hexpr
      have iE := append_nonjump_inv s _ hexpr h1
      have hpush : ∀ ins ∈ [(⟨0x1A, 0, 0⟩ : Instruction)], ¬ isJump ins.op := by
        intro ins h
        simp at h
        subst h
        simp [isJump]
      have hpop : ∀ ins ∈ [(⟨0x1B, reg, 0⟩ : Instruction)], ¬ isJump ins.op := by
        intro ins h
        simp at h
        subst h
        simp [isJump]
      have gP := append_nonjump_GS { s with instructions := s.instructions ++ genExpression s.symbolTable e }
        [⟨0x1A, 0, 0⟩] hpush
      have iP := append_nonjump_inv _ _ hpush iE
      have gF := append_nonjump_GS (emit { s with instructions := s.instructions ++ genExpression s.symbolTable e }
        ⟨0x1A, 0, 0⟩) [⟨0x1B, reg, 0⟩] hpop
      have iF := append_nonjump_inv _ _ hpop iP
      refine ⟨gE.trans (gP.trans gF), iF, ?_, ?_, ?_⟩
      · exact RegInv.mono h2 rfl rfl (gE.pre.trans (gP.pre.trans gF.pre))
      · intro id hle hlt
        have : (emit (emit { s with instructions := s.instructions ++ genExpression s.symbolTable e }
            ⟨0x1A, 0, 0⟩) ⟨0x1B, reg, 0⟩).labelCounter = s.labelCounter := rfl
        omega
      · have hmem : name ∈ keysF s := List.mem_toFinset.2 (lookup_mem_keys hlk)
        have hk : keysF (emit (emit { s with instructions := s.instructions ++ genExpression s.symbolTable e }
            ⟨0x1A, 0, 0⟩) ⟨0x1B, reg, 0⟩) = keysF s := keysF_congr rfl
        rw [hk, letNames]
        exact (Finset.union_eq_left.2 (Finset.singleton_subset_iff.2 hmem)).symm
  | print e =>
    intro s h1 h2
    have hexpr := genExpression_no_jump s.symbolTable e
    have hgen : genStatement s (.print e) =
        emit { s with instructions := s.instructions ++ genExpression s.symbolTable e }
          ⟨0x30, 0, 0⟩ := by
      rw [genStatement]
    rw [hgen]
    have gE : GS s { s with instructions := s.instructions ++ genExpression s.symbolTable e } :=
      append_nonjump_GS s _ hexpr
    have iE := append_nonjump_inv s _ hexpr h1
    have hprn : ∀ ins ∈ [(⟨0x30, 0, 0⟩ : Instruction)], ¬ isJump ins.op := by
      intro ins h
      simp at h
      subst h
      simp [isJump]
    have gF := append_nonjump_GS { s with instructions := s.instructions ++ genExpression s.symbolTable e }
      [⟨0x30, 0, 0⟩] hprn
    have iF := append_nonjump_inv _ _ hprn iE
    refine ⟨gE.trans gF, iF, ?_, ?_, ?_⟩
    · exact RegInv.mono h2 rfl rfl (gE.pre.trans gF.pre)
    · intro id hle hlt
      have : (emit { s with instructions := s.instructions ++ genExpression s.symbolTable e }
          ⟨0x30, 0, 0⟩).labelCounter = s.labelCounter := rfl
      omega
    · have hk : keysF (emit { s with instructions := s.instructions ++ genExpression s.symbolTable e }
          ⟨0x30, 0, 0⟩) = keysF s := keysF_congr rfl
      rw [hk, letNames]
      simp
  | ifS c tb eb =>
    intro s h1 h2
    exact if_case_spec s _ _ _ _ _ _ _ _ _
      (genExpression s.symbolTable c) condPrelude
      (fun t => genStmtList t tb) (fun t => genStmtList t eb)
      (letNamesList tb) (letNamesList eb)
      rfl rfl rfl rfl rfl rfl rfl rfl rfl
      (genExpression_no_jump s.symbolTable c) condPrelude_no_jump
      (fun t ht hr => genStmtList_spec tb t ht hr)
      (fun t ht hr => genStmtList_spec eb t ht hr) h1 h2
  | whileS c body =>
    intro s h1 h2
    exact while_case_spec s _ _ _ _ _ _ _ _
      (genExpression s.symbolTable c) condPrelude
      (fun t => genStmtList t body) (letNamesList body)
      rfl rfl rfl rfl rfl rfl rfl rfl
      (genExpression_no_jump s.symbolTable c) condPrelude_no_jump
      (fun t ht hr => genStmtList_spec body t ht hr) h1 h2

/-- Master lemma for a statement block. -/
theorem genStmtList_spec (sl : StmtList) : ∀ (s : CGState), CGInv s → RegInv s →
    LowerSpec s (genStmtList s sl) (letNamesList sl) := by
  cases sl with
  | nil =>
    intro s h1 h2
    refine ⟨GS.refl s, h1, h2, ?_, ?_⟩
    · intro id hle hlt
      have : genStmtList s .nil = s := by rw [genStmtList]
      rw [this] at hlt
      omega
    · have : genStmtList s .nil = s := by rw [genStmtList]
      rw [this, letNamesList]
      simp
  | cons t ts =>
    intro s h1 h2
    obtain ⟨gA, iA, rA, nmA, kA⟩ := genStatement_spec t s h1 h2
    obtain ⟨gB, iB, rB, nmB, kB⟩ := genStmtList_spec ts (genStatement s t) iA rA
    have hgen : genStmtList s (.cons t ts) = genStmtList (genStatement s t) ts := by
      rw [genStmtList]
    rw [hgen]
    refine ⟨gA.trans gB, iB, rB, ?_, ?_⟩
    · intro id hle hlt
      by_cases h : id < (genStatement s t).labelCounter
      · exact gB.keepSome id (nmA id hle h)
      · exact nmB id (by omega) hlt
    · rw [kB, kA, letNamesList, Finset.union_assoc]

end

theorem setA1_length (l : List Instruction) (n v : Nat) :
    (setA1 l n v).length = l.length := by
  induction l generalizing n with
  | nil => rfl
  | cons i rest ih => cases n <;> simp [setA1, ih]

theorem setA1_getElem? (l : List Instruction) (n v i : Nat) :
    (setA1 l n v)[i]? =
      if i = n then (l[i]?).map (fun ins => { ins with a1 := v }) else l[i]? := by
  induction l generalizing n i with
  | nil => simp [setA1]
  | cons i0 rest ih =>
    cases n with
    | zero =>
      cases i with
      | zero => simp [setA1]
      | succ k => simp [setA1]
    | succ m =>
      cases i with
      | zero => simp [setA1]
      | succ k =>
        simp only [setA1, List.getElem?_cons_succ]
        rw [ih m k]
        by_cases hk : k = m <;> simp [hk]

theorem patchList_cons (t : List (Nat × Nat)) (p : Nat × Nat) (phs : List (Nat × Nat))
    (l : List Instruction) :
    patchList t (p :: phs) l =
      patchList t phs
        (match t.lookup p.2 with
         | some v => setA1 l p.1 (v % 65536)
         | none => l) := rfl

theorem patchList_length (t : List (Nat × Nat)) (phs : List (Nat × Nat))
    (l : List Instruction) : (patchList t phs l).length = l.length := by
  induction phs generalizing l with
  | nil => rfl
  | cons p rest ih =>
    rw [patchList_cons]
    rcases h : t.lookup p.2 with - | v <;> simp [ih, setA1_length]

/-- In the patched list every instruction keeps its opcode, and its
operand is either untouched or one of the patched-in bounded values. -/
theorem patchList_getElem?_bound (t : List (Nat × Nat)) (phs : List (Nat × Nat))
    (L : Nat) (hv : ∀ p ∈ phs, ∀ v, t.lookup p.2 = some v → v % 65536 < L) :
    ∀ (l : List Instruction) (i : Nat) (ins : Instruction),
      (patchList t phs l)[i]? = some ins →
      ∃ ins0, l[i]? = some ins0 ∧ ins.op = ins0.op ∧ (ins.a1 = ins0.a1 ∨ ins.a1 < L) := by
  induction phs with
  | nil => exact fun l i ins hi => ⟨ins, hi, rfl, Or.inl rfl⟩
  | cons p rest ih =>
    intro l i ins hi
    rw [patchList_cons] at hi
    have hvr : ∀ q ∈ rest, ∀ v, t.lookup q.2 = some v → v % 65536 < L :=
      fun q hq => hv q (by simp [hq])
    rcases h : t.lookup p.2 with - | v
    · rw [h] at hi
      exact ih hvr l i ins hi
    · rw [h] at hi
      obtain ⟨ins0, hi0, hop, ha⟩ := ih hvr _ i ins hi
      rw [setA1_getElem?] at hi0
      by_cases hip : i = p.1
      · rw [if_pos hip] at hi0
        rcases h2 : l[i]? with - | ins1
        · rw [h2] at hi0
          cases hi0
        · rw [h2] at hi0
          simp at hi0
          refine ⟨ins1, rfl, by rw [hop, ← hi0], ?_⟩
          rcases ha with ha | ha
          · rw [ha, ← hi0]
            exact Or.inr (hv p (by simp) v h)
          · exact Or.inr ha
      · rw [if_neg hip] at hi0
        exact ⟨ins0, hi0, hop, ha⟩

/-- Patching never touches a non-jump instruction, as long as every
placeholder index holds a jump. -/
theorem patchList_getElem?_nonjump (t : List (Nat × Nat)) (phs : List (Nat × Nat)) :
    ∀ (l : List Instruction),
      (∀ p ∈ phs, ∃ ins, l[p.1]? = some ins ∧ isJump ins.op) →
      ∀ (i : Nat) (ins0 : Instruction), l[i]? = some ins0 → ¬ isJump ins0.op →
      (patchList t phs l)[i]? = some ins0 := by
  induction phs with
  | nil => exact fun l _ i ins0 hi _ => hi
  | cons p rest ih =>
    intro l hph i ins0 hi hnj
    rw [patchList_cons]
    rcases h : t.lookup p.2 with - | v
    · refine ih l (fun q hq => hph q (by simp [hq])) i ins0 hi hnj
    · have hne : i ≠ p.1 := by
        intro he
        obtain ⟨insj, hj1, hj2⟩ := hph p (by simp)
        rw [← he, hi] at hj1
        cases hj1
        exact hnj hj2
      refine ih _ ?_ i ins0 ?_ hnj
      · intro q hq
        obtain ⟨insj, hj1, hj2⟩ := hph q (by simp [hq])
        rw [setA1_getElem?]
        by_cases hqp : q.1 = p.1
        · rw [if_pos hqp, hj1]
          exact ⟨_, rfl, hj2⟩
        · rw [if_neg hqp]
          exact ⟨insj, hj1, hj2⟩
      · rw [setA1_getElem?, if_neg hne]
        exact hi

/-- The cleared state satisfies both invariants. -/
theorem cgInit_CGInv : CGInv cgInit where
  kLt := fun id h => by simp [cgInit, lookT] at h
  tLe := fun id v h => by simp [cgInit, lookT] at h
  phIdx := fun p hp => by simp [cgInit] at hp
  phLt := fun p hp => by simp [cgInit] at hp
  jmpPh := fun i ins hi => by simp [cgInit] at hi

theorem cgInit_RegInv : RegInv cgInit where
  nreg := rfl
  pop4 := fun h => by simp [cgInit] at h

/-- The trailing HLT is not a jump. -/
theorem hlt_not_jump : ∀ ins ∈ [(⟨0x02, 0, 0⟩ : Instruction)], ¬ isJump ins.op := by
  intro ins h
  simp at h
  subst h
  simp [isJump]

/-- Claim C4: in the instruction list returned by generate, every jump
instruction (JMP, JZ, JNZ) carries an operand that is a valid
instruction index into that list. -/
theorem generate_jump_targets_in_range (p : StmtList) :
    ∀ ins ∈ generate p, isJump ins.op → ins.a1 < (generate p).length := by
  obtain ⟨g1, i1, r1, nm1, k1⟩ := genStmtList_spec p cgInit cgInit_CGInv cgInit_RegInv
  have i2 : CGInv (genProgramState p) :=
    append_nonjump_inv (genStmtList cgInit p) _ hlt_not_jump i1
  have hlen2 : (genProgramState p).instructions.length =
      (genStmtList cgInit p).instructions.length + 1 := by
    show ((genStmtList cgInit p).instructions ++ [(⟨0x02, 0, 0⟩ : Instruction)]).length = _
    simp
  have hgen : generate p = patchList (genProgramState p).labelTargets
      (genProgramState p).labelPlaceholders (genProgramState p).instructions := rfl
  have hv : ∀ q ∈ (genProgramState p).labelPlaceholders, ∀ v,
      (genProgramState p).labelTargets.lookup q.2 = some v →
      v % 65536 < (genProgramState p).instructions.length := by
    intro q hq v hvq
    have hs1 : lookT (genStmtList cgInit p) q.2 = some v := hvq
    have hle := i1.tLe q.2 v hs1
    have hmod := Nat.mod_le v 65536
    omega
  intro ins hins hj
  obtain ⟨i, hi⟩ := getElem?_of_mem _ ins hins
  rw [hgen] at hi
  obtain ⟨ins0, hi0, hop, ha⟩ := patchList_getElem?_bound _ _ _ hv _ i ins hi
  have hj0 : isJump ins0.op := by rw [← hop]; exact hj
  obtain ⟨hza, -⟩ := i2.jmpPh i ins0 hi0 hj0
  have hlen_eq : (generate p).length = (genProgramState p).instructions.length := by
    rw [hgen]
    exact patchList_length _ _ _
  rcases ha with ha | ha
  · rw [ha, hza, hlen_eq, hlen2]
    omega
  · rw [hlen_eq]
    exact ha

/-- Witness for C4: in the S3 program's bytecode, the JZ instruction
(patched operand 22) targets a valid index of the 25-entry list. -/
theorem generate_jump_targets_in_range_witness :
    (⟨0x32, 22, 0⟩ : Instruction) ∈ generate s3prog ∧ isJump 0x32 ∧
    (⟨0x32, 22, 0⟩ : Instruction).a1 < (generate s3prog).length :=
  ⟨by decide, by decide,
   generate_jump_targets_in_range s3prog ⟨0x32, 22, 0⟩ (by decide) (by decide)⟩

/-- Claim C10: the "Unknown label ID" branch of patchJumps is
unreachable: on the state produced by lowering any program (all
statements lowered, HLT appended), every placeholder's label id has a
target, so the diagnostic list of patchJumps is empty. -/
theorem patch_never_reports_unknown_label (p : StmtList) :
    patchDiag (genProgramState p).labelTargets (genProgramState p).labelPlaceholders = [] := by
  obtain ⟨g1, i1, r1, nm1, k1⟩ := genStmtList_spec p cgInit cgInit_CGInv cgInit_RegInv
  have i2 : CGInv (genProgramState p) :=
    append_nonjump_inv (genStmtList cgInit p) _ hlt_not_jump i1
  have hfil : ((genProgramState p).labelPlaceholders.filter
      (fun q => ((genProgramState p).labelTargets.lookup q.2).isNone)) = [] := by
    rw [List.filter_eq_nil_iff]
    intro q hq
    have hlt : q.2 < (genProgramState p).labelCounter := i2.phLt q hq
    have hsome : (lookT (genStmtList cgInit p) q.2).isSome :=
      nm1 q.2 (Nat.zero_le _) hlt
    have hsome2 : ((genProgramState p).labelTargets.lookup q.2).isSome := hsome
    obtain ⟨v, hv⟩ := Option.isSome_iff_exists.1 hsome2
    simp [hv]
  unfold patchDiag
  rw [hfil]
  rfl

/-- Claim C9: a program whose statements bind at least four distinct
variable names makes generate emit a POP whose operand is 4 (≥ 4); any
POP or PUSH with operand ≥ 4 is the fatal invalid-register error in
the VM, and every read of a bound variable emits a PUSH carrying the
variable's register operand. -/
theorem four_variables_unrunnable (p : StmtList) (h4 : 4 ≤ (letNamesList p).card) :
    (∃ ins ∈ generate p, ins.op = 0x1B ∧ 4 ≤ ins.a1) ∧
    (∀ (ins : Instruction) (s : VMState), ins.op = 0x1B → 4 ≤ ins.a1 →
      execInstr ins s = .fatal "Invalid POP register" s) ∧
    (∀ (ins : Instruction) (s : VMState), ins.op = 0x1A → 4 ≤ ins.a1 →
      execInstr ins s = .fatal "Invalid PUSH register" s) ∧
    (∀ (tbl : List (String × Nat)) (x : String) (r : Nat), tbl.lookup x = some r →
      (⟨0x1A, r, 0⟩ : Instruction) ∈ genExpression tbl (.var x)) := by
  refine ⟨?_, ?_, ?_, ?_⟩
  · obtain ⟨g1, i1, r1, nm1, k1⟩ := genStmtList_spec p cgInit cgInit_CGInv cgInit_RegInv
    have i2 : CGInv (genProgramState p) :=
      append_nonjump_inv (genStmtList cgInit p) _ hlt_not_jump i1
    have hk : keysF (genStmtList cgInit p) = letNamesList p := by
      rw [k1]
      have h0 : keysF cgInit = ∅ := rfl
      rw [h0, Finset.empty_union]
    have hc2 : (keysF (genStmtList cgInit p)).card ≤
        (genStmtList cgInit p).symbolTable.length := by
      unfold keysF
      calc ((genStmtList cgInit p).symbolTable.map Prod.fst).toFinset.card
          ≤ ((genStmtList cgInit p).symbolTable.map Prod.fst).length :=
            List.toFinset_card_le _
        _ = (genStmtList cgInit p).symbolTable.length := List.length_map _ _
    have hcard : 4 ≤ (genStmtList cgInit p).symbolTable.length := by
      rw [hk] at hc2
      omega
    have hmem := r1.pop4 hcard
    obtain ⟨i, hi⟩ := getElem?_of_mem _ _ hmem
    have hi2 : (genProgramState p).instructions[i]? = some ⟨0x1B, 4, 0⟩ := by
      show ((genStmtList cgInit p).instructions ++ [⟨0x02, 0, 0⟩])[i]? = _
      rw [getElem?_append_left _ _ _ (List.getElem?_eq_some.1 hi).1]
      exact hi
    have hpatched := patchList_getElem?_nonjump (genProgramState p).labelTargets
      (genProgramState p).labelPlaceholders (genProgramState p).instructions
      i2.phIdx i ⟨0x1B, 4, 0⟩ hi2 (by simp [isJump])
    refine ⟨⟨0x1B, 4, 0⟩, ?_, rfl, by norm_num⟩
    have hgen : generate p = patchList (genProgramState p).labelTargets
        (genProgramState p).labelPlaceholders (genProgramState p).instructions := rfl
    rw [hgen]
    obtain ⟨hlt, he⟩ := List.getElem?_eq_some.1 hpatched
    rw [← he]
    exact List.getElem_mem hlt
  · intro ins s hop ha
    rcases ins with ⟨op, a1, a2⟩
    simp at hop
    subst hop
    have ha4 : 4 ≤ a1 := ha
    have h0 : a1 ≠ 0 := by omega
    have h1 : a1 ≠ 1 := by omega
    have h2 : a1 ≠ 2 := by omega
    have h3 : a1 ≠ 3 := by omega
    simp [execInstr, h0, h1, h2, h3]
  · intro ins s hop ha
    rcases ins with ⟨op, a1, a2⟩
    simp at hop
    subst hop
    have ha4 : 4 ≤ a1 := ha
    have h0 : a1 ≠ 0 := by omega
    have h1 : a1 ≠ 1 := by omega
    have h2 : a1 ≠ 2 := by omega
    have h3 : a1 ≠ 3 := by omega
    simp [execInstr, h0, h1, h2, h3]
  · intro tbl x r hlk
    rw [genExpression, hlk]
    simp

/-- A BroLang program binding four distinct variables. -/
def p4prog : StmtList :=
  .cons (.letS "a" (.num 1))
    (.cons (.letS "b" (.num 1))
      (.cons (.letS "c" (.num 1))
        (.cons (.letS "d" (.num 1)) .nil)))

/-- Witness for C9 at the four-variable program. -/
theorem four_variables_unrunnable_witness :
    4 ≤ (letNamesList p4prog).card ∧
    (∃ ins ∈ generate p4prog, ins.op = 0x1B ∧ 4 ≤ ins.a1) :=
  ⟨by decide, (four_variables_unrunnable p4prog (by decide)).1⟩
